import Mathlib

/-!
Verification of the cargo-resources resolution-and-synchronization engine
(`src/lib.rs` together with `src/declarations.rs` and `src/specifications.rs`)
against its natural-language specification.

The embedding models UTF-8 paths (camino `Utf8PathBuf`) as a flag for
absoluteness plus a list of components (a component may be the literal
`".."`; `"."` components are normalized away by the path library and are
not modelled).  The file system is a symlink-free store of directories and
files keyed by normalized absolute component lists; relative paths handed
to OS calls are resolved against the process current working directory,
exactly as the operating system does for the Rust `std::fs` calls in the
source.  The SHA-256 digest (already hex-encoded, as the source only ever
compares `hex::encode(sha)` values) is an explicit function parameter `H`:
every theorem below holds for an arbitrary digest function, because the
source only compares digest strings for equality.
-/

namespace CargoResources

/-- A camino `Utf8PathBuf`: absoluteness flag plus components (which may
include literal `".."` entries). -/
structure FsPath where
  absolute : Bool
  components : List String
deriving DecidableEq, Repr

/-- `Utf8PathBuf::join`: an absolute argument replaces the receiver,
a relative argument is appended component-wise. -/
def FsPath.join (a b : FsPath) : FsPath :=
  if b.absolute then b else ⟨a.absolute, a.components ++ b.components⟩

/-- `Utf8Path::parent`: drop the final component; `none` for an empty
relative path or the bare root. -/
def FsPath.parent (p : FsPath) : Option FsPath :=
  match p.components with
  | [] => none
  | _ :: _ => some ⟨p.absolute, p.components.dropLast⟩

/-- `Utf8Path::file_name`: the final component when it is a normal
component; `none` when the path is empty or ends in `".."`. -/
def FsPath.file_name (p : FsPath) : Option String :=
  match p.components.getLast? with
  | none => none
  | some s => if s = ".." then none else some s

/-- `Utf8PathBuf::is_absolute`. -/
def FsPath.is_absolute (p : FsPath) : Bool := p.absolute

/-- Render a path for error messages (`Display` of `Utf8PathBuf`). -/
def FsPath.render (p : FsPath) : String :=
  (if p.absolute then "/" else "") ++ String.intercalate "/" p.components

/-- Resolve `".."` components against a base stack of plain components,
as the OS does during path lookup (at the root, `".."` stays at the root). -/
def resolveComps (base : List String) : List String → List String
  | [] => base
  | c :: rest =>
    if c = ".." then resolveComps base.dropLast rest
    else resolveComps (base ++ [c]) rest

/-- Absolute normalized form of a path: a relative path is resolved against
the process current working directory `cwd` (itself absolute, normalized). -/
def normalize (cwd : List String) (p : FsPath) : List String :=
  resolveComps (if p.absolute then [] else cwd) p.components

/-- Render an absolute normalized path for error messages. -/
def renderAbs (l : List String) : String := "/" ++ String.intercalate "/" l

/-- Symlink-free file-system state: existing directories and file contents,
keyed by normalized absolute component lists.  The root `[]` always exists. -/
structure Fs where
  dirs : List (List String)
  files : List (List String × List Nat)
deriving DecidableEq, Repr

/-- Association-list lookup keyed on the first component. -/
def lookupList (files : List (List String × List Nat)) (n : List String) : Option (List Nat) :=
  (files.find? (fun e => e.1 = n)).map (·.2)

/-- Association-list write: replace the first binding in place, else append. -/
def setFileList : List (List String × List Nat) → List String → List Nat →
    List (List String × List Nat)
  | [], n, c => [(n, c)]
  | e :: rest, n, c => if e.1 = n then (n, c) :: rest else e :: setFileList rest n c

/-- Content of the file at normalized absolute path `n`, if present. -/
def Fs.lookupFile (fs : Fs) (n : List String) : Option (List Nat) :=
  lookupList fs.files n

/-- Write (create or overwrite) the file at `n` with content `c`. -/
def Fs.setFile (fs : Fs) (n : List String) (c : List Nat) : Fs :=
  { fs with files := setFileList fs.files n c }

/-- `Path::exists`: a directory or file is present at the normalized path
(the file-system root always exists). -/
def Fs.pathExists (fs : Fs) (n : List String) : Bool :=
  n = [] || fs.dirs.contains n || (lookupList fs.files n).isSome

/-- All nonempty prefixes of a normalized path (what `fs::create_dir_all`
brings into existence). -/
def nePrefixes (n : List String) : List (List String) :=
  (List.range n.length).map (fun k => n.take (k + 1))

/-- `fs::create_dir_all` at the normalized path: add every missing
intermediate directory. -/
def Fs.mkDirAll (fs : Fs) (n : List String) : Fs :=
  { fs with dirs := nePrefixes n ++ fs.dirs }

/-- `create_output_directory` (lib.rs 414-422): create the directory only
when nothing exists at the path yet.  Directory creation itself cannot fail
in the symlink-free model. -/
def create_output_directory (cwd : List String) (fs : Fs) (p : FsPath) : Fs :=
  if fs.pathExists (normalize cwd p) then fs else fs.mkDirAll (normalize cwd p)

/-- `Utf8PathBuf::canonicalize_utf8` in the symlink-free model: the
normalized absolute form, provided something exists there.  Call sites
attach their own error messages, as in the source. -/
def canonicalize (cwd : List String) (fs : Fs) (p : FsPath) : Option (List String) :=
  if fs.pathExists (normalize cwd p) then some (normalize cwd p) else none

/-- Monotone view of the file-system operations: every operation of the
model only adds directories and file keys, so path existence is preserved. -/
def FsLe (a b : Fs) : Prop :=
  ∀ n, a.pathExists n = true → b.pathExists n = true

/-- Whether the destination file at normalized path `n` exists and its
digest matches the digest of the source content `c` (the skip condition of
lib.rs 317-324). -/
def destHashMatches (H : List Nat → String) (fs : Fs) (n : List String) (c : List Nat) : Bool :=
  match lookupList fs.files n with
  | some cOld => decide (H cOld = H c)
  | none => false

/-- Outcome of a Rust computation that may return `Err` or abort by
`panic!`/`expect`. -/
inductive PResult (α : Type) where
  | ok (a : α)
  | err (e : String)
  | panicked (msg : String)
deriving DecidableEq, Repr

/-- `ResourceEncoding` (resource_encoding.rs). -/
inductive ResourceEncoding where
  | Txt
  | Bin
deriving DecidableEq, Repr

/-- `ResourceDataDeclaration` (declarations.rs): a raw `provides` entry. -/
structure ResourceDataDeclaration where
  encoding : Option ResourceEncoding
  crate_path : FsPath
  output_path : Option FsPath
  resource_name : Option String
deriving DecidableEq, Repr

/-- `ResourceRequirementDeclaration` (declarations.rs): a raw `requires`
entry.  The `required_sha` field is read by `get_resource_requirement`
(lib.rs 275), so it is part of the declaration schema. -/
structure ResourceRequirementDeclaration where
  resource_name : String
  required_sha : Option String
deriving DecidableEq, Repr

/-- `ResourceConsumerDeclaration` (declarations.rs). -/
structure ResourceConsumerDeclaration where
  resource_root : Option FsPath
  requires : Option (List ResourceRequirementDeclaration)
deriving DecidableEq, Repr

/-- `ResourceSpecification` (specifications.rs): the resolved form of a
declaration.  The semver version is kept as its rendered string. -/
structure ResourceSpecification where
  declaring_crate_name : String
  declaring_crate_version : String
  encoding : ResourceEncoding
  full_crate_path : FsPath
  output_path : FsPath
  resource_name : String
deriving DecidableEq, Repr

/-- `ResourceRequirement` (specifications.rs). -/
structure ResourceRequirement where
  resource_name : String
  required_sha : Option String
deriving DecidableEq, Repr

/-- `ResourceConsumerSpecification` (specifications.rs). -/
structure ResourceConsumerSpecification where
  resource_root : FsPath
  required_resources : List ResourceRequirement
deriving DecidableEq, Repr

/-- The shape of `package.metadata["cargo_resources"]["provides"]` as the
source distinguishes it (lib.rs 160-239): missing section or `Null`
provides contribute nothing; an array of entries, each either parsed or a
serde failure; any other shape is an error. -/
inductive DeclEntry where
  | parsed (d : ResourceDataDeclaration)
  | malformed (err : String)
deriving DecidableEq, Repr

/-- Shape of the provider-side metadata section. -/
inductive ProvidesMeta where
  | absent
  | entries (l : List DeclEntry)
  | badShape
deriving DecidableEq, Repr

/-- The shape of the consuming package's `cargo_resources` metadata as
`get_resource_requirement` distinguishes it (lib.rs 248-261): `Null`,
an object (with its serde parse result), or any other value. -/
inductive ConsumerMeta where
  | null
  | object (parse : Except String ResourceConsumerDeclaration)
  | other
deriving Repr

/-- A cargo package as the core reads it from the metadata collaborator. -/
structure Package where
  id : String
  name : String
  version : String
  manifest_path : FsPath
  provides : ProvidesMeta
  consumer : ConsumerMeta

/-- A resolved dependency-graph node (`cargo_metadata::Node`). -/
structure Node where
  id : String
  dependencies : List String
deriving DecidableEq, Repr

/-- The metadata handed back by the external metadata collaborator. -/
structure Metadata where
  packages : List Package
  nodes : List Node
  root_id : Option String

/-- The Declaration Registry: the `HashMap<String, ResourceSpecification>`
modelled as an association list with key-unique insert-or-replace. -/
abbrev Registry := List (String × ResourceSpecification)

/-- `HashMap::get`. -/
def lookupReg (reg : Registry) (name : String) : Option ResourceSpecification :=
  (List.find? (fun e => e.1 = name) reg).map (·.2)

/-- `HashMap::contains_key`. -/
def containsReg (reg : Registry) (name : String) : Bool :=
  (List.find? (fun e => e.1 = name) reg).isSome

/-- `HashMap::insert`: replace the binding in place when the key exists,
else add a binding. -/
def insertReg : Registry → String → ResourceSpecification → Registry
  | [], name, v => [(name, v)]
  | e :: rest, name, v => if e.1 = name then (name, v) :: rest else e :: insertReg rest name v

/-- Post-registry events the source prints (lib.rs `println!` calls),
modelled as data so theorems can count notifications. -/
inductive Event where
  | noResources
  | resourceReport (already_existed : Bool) (sha : String) (path : FsPath)
  | duplicateResource (name : String) (replaced withPath : FsPath)
deriving DecidableEq, Repr

/-- Processing of one parsed `provides` entry, lib.rs 170-221, in source
order: resolve the output path, resolve the name (`expect` aborts when the
source path has no file-name component), reject absolute source then
output paths, join the manifest directory (`expect` aborts when the
manifest path has no parent), then insert with a duplicate warning. -/
def processDeclaration (pkg : Package) (declaration : ResourceDataDeclaration)
    (resources : Registry) : PResult (Registry × List Event) :=
  let resolved_output_path := declaration.output_path.getD declaration.crate_path
  -- `unwrap_or` evaluates its argument eagerly, so the `expect` on
  -- `file_name()` aborts even when `resource_name` is present.
  match declaration.crate_path.file_name with
  | none => .panicked "Illegal resource name"
  | some fallback_name =>
    let resolved_name := declaration.resource_name.getD fallback_name
    if declaration.crate_path.is_absolute then
      .err ("Crate " ++ pkg.name ++ " declares an absolute resource path "
            ++ declaration.crate_path.render)
    else if resolved_output_path.is_absolute then
      .err ("Crate " ++ pkg.name ++ " declares an absolute output path "
            ++ resolved_output_path.render)
    else
      match pkg.manifest_path.parent with
      | none => .panicked "No manifest directory!"
      | some manifest_dir =>
        let full_source_path := manifest_dir.join declaration.crate_path
        let data : ResourceSpecification :=
          { declaring_crate_name := pkg.name
            declaring_crate_version := pkg.version
            encoding := declaration.encoding.getD ResourceEncoding.Txt
            full_crate_path := full_source_path
            output_path := resolved_output_path
            resource_name := resolved_name }
        let evs :=
          match lookupReg resources resolved_name with
          | some old => [Event.duplicateResource resolved_name old.full_crate_path data.full_crate_path]
          | none => []
        .ok (insertReg resources resolved_name data, evs)

/-- Fold `processDeclaration` over a list of raw entries, aborting at the
first serde failure, error or panic, as the `for` loop in lib.rs 167-230. -/
def processEntries (pkg : Package) : List DeclEntry → Registry →
    PResult (Registry × List Event)
  | [], resources => .ok (resources, [])
  | .malformed e :: _, _ =>
    .err ("Malformed resource declaration in " ++ pkg.name ++ ": " ++ e)
  | .parsed d :: rest, resources =>
    match processDeclaration pkg d resources with
    | .ok (resources2, evs) =>
      match processEntries pkg rest resources2 with
      | .ok (resources3, evs2) => .ok (resources3, evs ++ evs2)
      | .err e => .err e
      | .panicked m => .panicked m
    | .err e => .err e
    | .panicked m => .panicked m

/-- `get_package_resource_data` (lib.rs 155-240). -/
def get_package_resource_data (pkg : Package) (resources : Registry) :
    PResult (Registry × List Event) :=
  match pkg.provides with
  | .absent => .ok (resources, [])
  | .entries l => processEntries pkg l resources
  | .badShape =>
    .err "unexpected type for [package.metadata.cargo_resources].provides in the json-metadata"

/-- The registry-construction loop of `collate_resources` (lib.rs 79-82). -/
def buildRegistry : List Package → Registry → PResult (Registry × List Event)
  | [], resources => .ok (resources, [])
  | pkg :: rest, resources =>
    match get_package_resource_data pkg resources with
    | .ok (resources2, evs) =>
      match buildRegistry rest resources2 with
      | .ok (resources3, evs2) => .ok (resources3, evs ++ evs2)
      | .err e => .err e
      | .panicked m => .panicked m
    | .err e => .err e
    | .panicked m => .panicked m

/-- The literal default output root (lib.rs 263). -/
def defaultResourceRoot : FsPath := ⟨false, ["target", "resources"]⟩

/-- `get_resource_requirement` (lib.rs 243-281). -/
def get_resource_requirement (meta : ConsumerMeta) (available_resources : Registry) :
    PResult ResourceConsumerSpecification :=
  match meta with
  | .other => .panicked "Misconfigured [package.metadata.cargo_resources] in consuming package."
  | .object (.error e) =>
    .err ("Unable to read consuming crates [package.metadata.cargo_resources]: " ++ e)
  | .null => .ok
      { resource_root := defaultResourceRoot
        required_resources := available_resources.map
          (fun e => { resource_name := e.2.resource_name, required_sha := none }) }
  | .object (.ok consumer_declaration) => .ok
      { resource_root := consumer_declaration.resource_root.getD defaultResourceRoot
        required_resources :=
          match consumer_declaration.requires with
          | none => available_resources.map
              (fun e => { resource_name := e.2.resource_name, required_sha := none })
          | some declarations => declarations.map
              (fun dec => { resource_name := dec.resource_name, required_sha := dec.required_sha }) }

/-- `get_file_sha` followed by `hex::encode` (lib.rs 299, 320, 350-365):
the hex digest of the file at `p`, or the open error.  `H` is the
hex-encoded SHA-256 digest function. -/
def get_file_sha (H : List Nat → String) (cwd : List String) (fs : Fs) (p : FsPath) :
    Except String String :=
  match fs.lookupFile (normalize cwd p) with
  | some content => .ok (H content)
  | none => .error ("Error opening " ++ p.render ++ ", file not found")

/-- The interim-folder walk of `verify_resource_is_in_root` (lib.rs
385-391): join the parent components one at a time and create each
partial directory. -/
def walkCreate (cwd : List String) (fs : Fs) (p : FsPath) : Fs :=
  (List.range p.components.length).foldl
    (fun f k => create_output_directory cwd f ⟨p.absolute, p.components.take (k + 1)⟩) fs

/-- `verify_resource_is_in_root` (lib.rs 368-411): canonicalize the root,
return early when the resource path has no parent, create the interim
folders, canonicalize the parent, and require it to start with the
canonical root. -/
def verify_resource_is_in_root (cwd : List String) (fs : Fs)
    (resource_path root_path : FsPath) : Fs × Except String Unit :=
  match canonicalize cwd fs root_path with
  | none => (fs, .error ("Unable to canonicalize root path: " ++ root_path.render))
  | some can_root_path =>
    match resource_path.parent with
    | none => (fs, .ok ())
    | some par =>
      let fs2 := walkCreate cwd fs par
      match canonicalize cwd fs2 par with
      | none => (fs2, .error ("Unable to canonicalize resource path: " ++ resource_path.render))
      | some can_resource_path =>
        if can_root_path.isPrefixOf can_resource_path then (fs2, .ok ())
        else (fs2, .error ("Cannot copy to " ++ renderAbs can_resource_path
              ++ " as not in resource root " ++ renderAbs can_root_path))

/-- The hash-mismatch error message of lib.rs 306-310. -/
def hashMismatchMsg (name newSha reqSha : String) : String :=
  "Resource " ++ name ++ " with sha " ++ newSha ++ " does not match required sha " ++ reqSha ++ "."

/-- `fs::copy` source → destination (lib.rs 327). -/
def fsCopy (cwd : List String) (fs : Fs) (src dst : FsPath) : Fs × Except String Unit :=
  match fs.lookupFile (normalize cwd src) with
  | none => (fs, .error ("Unable to copy resource " ++ src.render ++ " to " ++ dst.render))
  | some c => (fs.setFile (normalize cwd dst) c, .ok ())

/-- `copy_resource` (lib.rs 284-347): containment check, parent-directory
creation, source digest, pinned-hash verification, change detection by
digest comparison, conditional copy, and the collection report event. -/
def copy_resource (H : List Nat → String) (cwd : List String) (fs : Fs)
    (res_req : ResourceRequirement) (res_dec : ResourceSpecification)
    (resource_root : FsPath) : Fs × PResult Event :=
  match verify_resource_is_in_root cwd fs (resource_root.join res_dec.output_path)
      resource_root with
  | (fs1, .error e) => (fs1, .err e)
  | (fs1, .ok _) =>
    match (resource_root.join res_dec.output_path).parent with
    | none => (fs1, .panicked "called Option::unwrap on a None value")
    | some output_directory =>
      match get_file_sha H cwd (create_output_directory cwd fs1 output_directory)
          res_dec.full_crate_path with
      | .error e => (create_output_directory cwd fs1 output_directory, .err e)
      | .ok new_sha =>
        match (match res_req.required_sha with
               | some req => if req ≠ new_sha then
                   some (hashMismatchMsg res_req.resource_name new_sha req) else none
               | none => none) with
        | some e => (create_output_directory cwd fs1 output_directory, .err e)
        | none =>
          -- a digest failure on the existing destination propagates (`?`)
          match (if (create_output_directory cwd fs1 output_directory).pathExists
                     (normalize cwd (resource_root.join res_dec.output_path)) then
                   (get_file_sha H cwd (create_output_directory cwd fs1 output_directory)
                       (resource_root.join res_dec.output_path)).map
                     (fun existing_sha => decide (existing_sha = new_sha))
                 else .ok false : Except String Bool) with
          | .error e => (create_output_directory cwd fs1 output_directory, .err e)
          | .ok already_exists =>
          if already_exists then
            (create_output_directory cwd fs1 output_directory,
             .ok (Event.resourceReport true new_sha (resource_root.join res_dec.output_path)))
          else
            match fsCopy cwd (create_output_directory cwd fs1 output_directory)
                res_dec.full_crate_path (resource_root.join res_dec.output_path) with
            | (fs3, .error e) => (fs3, .err e)
            | (fs3, .ok _) =>
              (fs3, .ok (Event.resourceReport false new_sha
                (resource_root.join res_dec.output_path)))

/-- The per-requirement loop of `collate_resources` (lib.rs 96-103):
look the requirement up in the registry, copy, and accumulate the report
events and the resolved specifications. -/
def syncLoop (H : List Nat → String) (cwd : List String) (registry : Registry)
    (resource_root : FsPath) :
    List ResourceRequirement → Fs → Fs × PResult (List Event × List ResourceSpecification)
  | [], fs => (fs, .ok ([], []))
  | res_req :: rest, fs =>
    match lookupReg registry res_req.resource_name with
    | none => (fs, .err ("No resource found matching requirement " ++ res_req.resource_name))
    | some res_dec =>
      match copy_resource H cwd fs res_req res_dec resource_root with
      | (fs1, .err e) => (fs1, .err e)
      | (fs1, .panicked m) => (fs1, .panicked m)
      | (fs1, .ok ev) =>
        match syncLoop H cwd registry resource_root rest fs1 with
        | (fs2, .ok (evs, specs)) => (fs2, .ok (ev :: evs, res_dec :: specs))
        | (fs2, .err e) => (fs2, .err e)
        | (fs2, .panicked m) => (fs2, .panicked m)

/-- The resolution-and-synchronization tail of `collate_resources`
(lib.rs 85-112): resolve the consumer requirement, create the output
root, short-circuit on an empty requirement set, synchronize every
requirement, then write the `resolved_resources.json` record.  `ser` is
the JSON serialization of the resolved specification list. -/
def collate_sync (H : List Nat → String) (ser : List ResourceSpecification → List Nat)
    (cwd : List String) (meta : ConsumerMeta) (registry : Registry) (fs : Fs) :
    Fs × PResult (List Event) :=
  match get_resource_requirement meta registry with
  | .err e => (fs, .err e)
  | .panicked m => (fs, .panicked m)
  | .ok spec =>
    let resource_root := spec.resource_root
    let fs1 := create_output_directory cwd fs resource_root
    if spec.required_resources.length ≤ 0 then (fs1, .ok [Event.noResources])
    else
      match syncLoop H cwd registry resource_root spec.required_resources fs1 with
      | (fs2, .err e) => (fs2, .err e)
      | (fs2, .panicked m) => (fs2, .panicked m)
      | (fs2, .ok (evs, resolved)) =>
        let record_file_path := resource_root.join ⟨false, ["resolved_resources.json"]⟩
        (fs2.setFile (normalize cwd record_file_path) (ser resolved), .ok evs)

/-- Lookup in the node map built at lib.rs 131. -/
def findNode (nodes : List Node) (idv : String) : Option Node :=
  nodes.find? (fun n => n.id = idv)

/-- `HashSet::insert` on the processed set. -/
def insertSet (idv : String) (s : List String) : List String :=
  if idv ∈ s then s else idv :: s

/-- The dependency-push loop of lib.rs 145-149: push every direct
dependency not yet processed, looking each up in the node map. -/
def pushDeps (nodes : List Node) (processed : List String) :
    List String → List Node → Except String (List Node)
  | [], stack => .ok stack
  | d :: rest, stack =>
    if d ∈ processed then pushDeps nodes processed rest stack
    else
      match findNode nodes d with
      | none => .error "Missing details."
      | some n => pushDeps nodes processed rest (n :: stack)

/-- The `while let Some(node) = pending_nodes.pop()` loop of lib.rs
136-150, fuel-indexed (`none` means the fuel ran out before the stack
drained; the marked set equals the processed set since every popped node
is both marked as a dependency and inserted into the processed set). -/
def depLoop (packages : List String) (nodes : List Node) :
    Nat → List String → List Node → Option (Except String (List String))
  | _, processed, [] => some (.ok processed)
  | 0, _, _ :: _ => none
  | fuel + 1, processed, node :: rest =>
    if node.id ∈ packages then
      match pushDeps nodes (insertSet node.id processed) node.dependencies rest with
      | .error e => some (.error e)
      | .ok stack2 => depLoop packages nodes fuel (insertSet node.id processed) stack2
    else some (.error "Missing details.")

/-- `get_package_details` (lib.rs 116-152), reduced to the set of package
ids marked `is_dependency`: seed the stack with the root node and run the
frontier loop. -/
def get_package_details (packages : List String) (nodes : List Node)
    (root_id : String) (fuel : Nat) : Option (Except String (List String)) :=
  match findNode nodes root_id with
  | none => some (.error "Missing dependency node")
  | some root_node => depLoop packages nodes fuel [] [root_node]

/-- The number of node ids not yet in the processed set (the well-founded
measure of the frontier loop). -/
def unprocCount (nodes : List Node) (processed : List String) : Nat :=
  ((nodes.map Node.id).filter (fun i => decide (¬ i ∈ processed))).length

/-- Specification-side reachability along direct-dependency edges,
starting at (and including) the root. -/
inductive Reachable (nodes : List Node) (root : String) : String → Prop where
  | refl : Reachable nodes root root
  | step {a b : String} {n : Node} : Reachable nodes root a →
      findNode nodes a = some n → b ∈ n.dependencies → Reachable nodes root b

/-- `collate_resources` (lib.rs 53-113) end to end, with the external
metadata collaborator's answer passed in as `meta` and the frontier loop
fuel-indexed. -/
def collate_resources (H : List Nat → String) (ser : List ResourceSpecification → List Nat)
    (cwd : List String) (source_manifest : FsPath) (meta : Metadata) (fuel : Nat)
    (fs : Fs) : Option (Fs × PResult (List Event)) :=
  if ¬ fs.pathExists (normalize cwd source_manifest) then
    some (fs, .err ("Source manifest does not exist: " ++ source_manifest.render))
  else
    match meta.root_id with
    | none => some (fs, .panicked "Unexpected error finding the consuming crate - please run in a crate not a workspace.")
    | some root_id =>
      match meta.packages.find? (fun p => p.id = root_id) with
      | none => some (fs, .panicked "Unexpected error finding the consuming crate - please run in a crate not a workspace.")
      | some root_package =>
        match get_package_details (meta.packages.map (·.id)) meta.nodes root_id fuel with
        | none => none
        | some (.error e) => some (fs, .err e)
        | some (.ok marked) =>
          let child_packages := meta.packages.filter (fun p => p.id ∈ marked)
          match buildRegistry child_packages [] with
          | .err e => some (fs, .err e)
          | .panicked m => some (fs, .panicked m)
          | .ok (declared_resources, evs) =>
            match collate_sync H ser cwd root_package.consumer declared_resources fs with
            | (fs2, .ok evs2) => some (fs2, .ok (evs ++ evs2))
            | (fs2, .err e) => some (fs2, .err e)
            | (fs2, .panicked m) => some (fs2, .panicked m)

/-! ### Basic lemmas about the file-system and registry models -/

theorem lookupList_cons (e : List String × List Nat) (rest : List (List String × List Nat))
    (m : List String) :
    lookupList (e :: rest) m = if e.1 = m then some e.2 else lookupList rest m := by
  unfold lookupList
  by_cases h : e.1 = m <;> simp [List.find?, h]

theorem lookupList_setFileList (files : List (List String × List Nat)) (n : List String)
    (c : List Nat) (m : List String) :
    lookupList (setFileList files n c) m = if m = n then some c else lookupList files m := by
  induction files with
  | nil =>
    by_cases hm : m = n <;> simp [setFileList, lookupList_cons, lookupList, hm, eq_comm]
  | cons e rest ih =>
    by_cases he : e.1 = n
    · by_cases hm : m = n
      · simp [setFileList, he, lookupList_cons, hm]
      · have hne : ¬ n = m := fun h => hm h.symm
        simp [setFileList, he, lookupList_cons, hm, hne, he ▸ hne]
    · by_cases hem : e.1 = m
      · have hmn : ¬ m = n := fun h => he (hem.trans h)
        simp [setFileList, he, lookupList_cons, hem, hmn]
      · simp [setFileList, he, lookupList_cons, hem, ih]

theorem lookupFile_setFile (fs : Fs) (n : List String) (c : List Nat) (m : List String) :
    (fs.setFile n c).lookupFile m = if m = n then some c else fs.lookupFile m :=
  lookupList_setFileList fs.files n c m

theorem lookupReg_cons (e : String × ResourceSpecification) (rest : Registry) (k : String) :
    lookupReg (e :: rest) k = if e.1 = k then some e.2 else lookupReg rest k := by
  unfold lookupReg
  by_cases h : e.1 = k <;> simp [List.find?, h]

theorem lookupReg_insertReg (reg : Registry) (name : String) (v : ResourceSpecification)
    (k : String) :
    lookupReg (insertReg reg name v) k = if name = k then some v else lookupReg reg k := by
  induction reg with
  | nil =>
    by_cases hk : name = k <;> simp [insertReg, lookupReg_cons, lookupReg, hk]
  | cons e rest ih =>
    by_cases he : e.1 = name
    · by_cases hk : name = k
      · simp [insertReg, he, lookupReg_cons, hk]
      · simp [insertReg, he, lookupReg_cons, hk, he ▸ hk]
    · by_cases hek : e.1 = k
      · have hk : ¬ name = k := fun h => he (h ▸ hek)
        have hkn : ¬ k = name := fun h => hk h.symm
        simp [insertReg, he, lookupReg_cons, hek, hk, hkn]
      · simp [insertReg, he, lookupReg_cons, hek, ih]

/-- Directory creation and the interim-folder walk never touch file contents. -/
theorem files_create_output_directory (cwd : List String) (fs : Fs) (p : FsPath) :
    (create_output_directory cwd fs p).files = fs.files := by
  unfold create_output_directory
  split <;> rfl

theorem files_foldl_create (cwd : List String) (l : List FsPath) (fs : Fs) :
    (l.foldl (fun f q => create_output_directory cwd f q) fs).files = fs.files := by
  induction l generalizing fs with
  | nil => rfl
  | cons q rest ih => simp [List.foldl, ih, files_create_output_directory]

theorem files_walkCreate (cwd : List String) (fs : Fs) (p : FsPath) :
    (walkCreate cwd fs p).files = fs.files := by
  unfold walkCreate
  induction (List.range p.components.length) generalizing fs with
  | nil => rfl
  | cons k rest ih => simp [List.foldl, ih, files_create_output_directory]

theorem files_verify (cwd : List String) (fs : Fs) (rp root : FsPath) :
    (verify_resource_is_in_root cwd fs rp root).1.files = fs.files := by
  unfold verify_resource_is_in_root
  rcases canonicalize cwd fs root with _ | cr
  · rfl
  · rcases rp.parent with _ | par
    · rfl
    · simp only
      rcases hc : canonicalize cwd (walkCreate cwd fs par) par with _ | crp
      · simp [files_walkCreate]
      · dsimp only
        by_cases hpf : cr.isPrefixOf crp <;> simp [hpf, files_walkCreate]

theorem FsLe.refl (a : Fs) : FsLe a a := fun _ h => h

theorem FsLe.trans {a b c : Fs} (h1 : FsLe a b) (h2 : FsLe b c) : FsLe a c :=
  fun n h => h2 n (h1 n h)

theorem pathExists_of_dirs_subset {a b : Fs} (hd : ∀ x ∈ a.dirs, x ∈ b.dirs)
    (hf : a.files = b.files) : FsLe a b := by
  intro n h
  unfold Fs.pathExists at h ⊢
  rw [← hf]
  rcases Bool.or_eq_true_iff.mp h with h | h
  · rcases Bool.or_eq_true_iff.mp h with h | h
    · simp [h]
    · have := hd n (by simpa using h)
      simp [this]
  · simp [h]

theorem fsLe_mkDirAll (fs : Fs) (n : List String) : FsLe fs (fs.mkDirAll n) := by
  apply pathExists_of_dirs_subset
  · intro x hx
    unfold Fs.mkDirAll
    simp [hx]
  · rfl

theorem fsLe_create (cwd : List String) (fs : Fs) (p : FsPath) :
    FsLe fs (create_output_directory cwd fs p) := by
  unfold create_output_directory
  split
  · exact FsLe.refl fs
  · exact fsLe_mkDirAll fs _

theorem fsLe_walkCreate (cwd : List String) (fs : Fs) (p : FsPath) :
    FsLe fs (walkCreate cwd fs p) := by
  unfold walkCreate
  induction (List.range p.components.length) generalizing fs with
  | nil => exact FsLe.refl fs
  | cons k rest ih =>
    exact (fsLe_create cwd fs _).trans (ih _)

theorem fsLe_setFile (fs : Fs) (n : List String) (c : List Nat) :
    FsLe fs (fs.setFile n c) := by
  intro m h
  unfold Fs.pathExists at h ⊢
  rcases Bool.or_eq_true_iff.mp h with h | h
  · exact Bool.or_eq_true_iff.mpr (Or.inl h)
  · refine Bool.or_eq_true_iff.mpr (Or.inr ?_)
    show (lookupList (fs.setFile n c).files m).isSome = true
    have hfe : (fs.setFile n c).files = setFileList fs.files n c := rfl
    rw [hfe, lookupList_setFileList]
    by_cases hm : m = n <;> simp [hm, h]

theorem fsLe_verify (cwd : List String) (fs : Fs) (rp root : FsPath) :
    FsLe fs (verify_resource_is_in_root cwd fs rp root).1 := by
  unfold verify_resource_is_in_root
  rcases canonicalize cwd fs root with _ | cr
  · exact FsLe.refl fs
  · rcases rp.parent with _ | par
    · exact FsLe.refl fs
    · simp only
      rcases hc : canonicalize cwd (walkCreate cwd fs par) par with _ | crp
      · exact fsLe_walkCreate cwd fs par
      · dsimp only
        by_cases hpf : cr.isPrefixOf crp <;> simp only [hpf] <;>
          exact fsLe_walkCreate cwd fs par

/-- After `create_output_directory` the target path exists. -/
theorem pathExists_create (cwd : List String) (fs : Fs) (p : FsPath) :
    (create_output_directory cwd fs p).pathExists (normalize cwd p) = true := by
  unfold create_output_directory
  split
  · assumption
  · unfold Fs.pathExists Fs.mkDirAll
    rcases hn : normalize cwd p with _ | ⟨x, xs⟩
    · simp
    · have : (x :: xs) ∈ nePrefixes (x :: xs) := by
        unfold nePrefixes
        refine List.mem_map.mpr ⟨xs.length, ?_, by simp⟩
        simp
      simp [this]

/-! ### Claims -/

/-- C10: for every declaration that omits `resource_name` and whose
declared source path has no file-name component, registry construction
aborts by panic ("Illegal resource name") rather than returning an error
value, and this abort happens before the absolute-path validation is
reached. -/
theorem claim_c10 (pkg : Package) (d : ResourceDataDeclaration) (reg : Registry)
    (hname : d.resource_name = none) (hfile : d.crate_path.file_name = none) :
    processDeclaration pkg d reg = .panicked "Illegal resource name" := by
  unfold processDeclaration
  rw [hfile]

/-- Witness for C10 at a concrete declaration whose source path is
absolute and ends in `".."`: the abort is a panic, not the absolute-path
error, so it fires before that validation. -/
theorem claim_c10_witness :
    (ResourceDataDeclaration.mk none ⟨true, ["a", ".."]⟩ none none).resource_name = none ∧
    (ResourceDataDeclaration.mk none ⟨true, ["a", ".."]⟩ none none).crate_path.file_name = none ∧
    (ResourceDataDeclaration.mk none ⟨true, ["a", ".."]⟩ none none).crate_path.is_absolute = true ∧
    processDeclaration ⟨"p", "p", "1.0.0", ⟨true, ["m", "Cargo.toml"]⟩, .absent, .null⟩
        ⟨none, ⟨true, ["a", ".."]⟩, none, none⟩ [] = .panicked "Illegal resource name" :=
  ⟨rfl, rfl, rfl, claim_c10 _ _ _ rfl rfl⟩

/-- C8: when the resolved requirement set is empty the run terminates
successfully with exactly one "no resources found" notification, and no
file (in particular no `resolved_resources.json` record) is created. -/
theorem claim_c8 (H : List Nat → String) (ser : List ResourceSpecification → List Nat)
    (cwd : List String) (meta : ConsumerMeta) (reg : Registry) (fs : Fs)
    (spec : ResourceConsumerSpecification)
    (hok : get_resource_requirement meta reg = .ok spec)
    (hempty : spec.required_resources = []) :
    collate_sync H ser cwd meta reg fs =
      (create_output_directory cwd fs spec.resource_root, .ok [Event.noResources]) ∧
    (create_output_directory cwd fs spec.resource_root).files = fs.files := by
  constructor
  · unfold collate_sync
    rw [hok]
    simp [hempty]
  · exact files_create_output_directory cwd fs spec.resource_root

/-- Witness for C8: an empty registry and an absent consumer section. -/
theorem claim_c8_witness :
    get_resource_requirement .null [] = .ok ⟨defaultResourceRoot, []⟩ ∧
    collate_sync (fun _ => "") (fun _ => []) ["w"] .null [] ⟨[], []⟩ =
      (create_output_directory ["w"] ⟨[], []⟩ defaultResourceRoot, .ok [Event.noResources]) ∧
    (create_output_directory ["w"] ⟨[], []⟩ defaultResourceRoot).files = ([] : List (List String × List Nat)) :=
  ⟨rfl, (claim_c8 (fun _ => "") (fun _ => []) ["w"] .null [] ⟨[], []⟩
      ⟨defaultResourceRoot, []⟩ rfl rfl).1,
    (claim_c8 (fun _ => "") (fun _ => []) ["w"] .null [] ⟨[], []⟩
      ⟨defaultResourceRoot, []⟩ rfl rfl).2⟩

/-- C4: with an explicit `requires` list the resolver produces exactly one
requirement per declared entry, name and optional pinned hash verbatim;
with no `requires` list (explicitly absent or the whole section absent) it
produces one requirement per registry resource name, each unpinned. -/
theorem claim_c4 (reg : Registry) (decl : ResourceConsumerDeclaration)
    (hwf : ∀ e ∈ reg, (e : String × ResourceSpecification).2.resource_name = e.1) :
    (∀ l, decl.requires = some l →
      get_resource_requirement (.object (.ok decl)) reg =
        .ok ⟨decl.resource_root.getD defaultResourceRoot,
             l.map (fun dec => ⟨dec.resource_name, dec.required_sha⟩)⟩) ∧
    (decl.requires = none →
      get_resource_requirement (.object (.ok decl)) reg =
        .ok ⟨decl.resource_root.getD defaultResourceRoot,
             reg.map (fun e => ⟨e.1, none⟩)⟩) ∧
    get_resource_requirement .null reg =
      .ok ⟨defaultResourceRoot, reg.map (fun e => ⟨e.1, none⟩)⟩ := by
  have hm : reg.map (fun e => ResourceRequirement.mk e.2.resource_name none) =
      reg.map (fun e => ⟨e.1, none⟩) := by
    apply List.map_congr_left
    intro e he
    rw [hwf e he]
  refine ⟨?_, ?_, ?_⟩
  · intro l hl
    simp only [get_resource_requirement, hl]
  · intro hl
    simp only [get_resource_requirement, hl, hm]
  · simp only [get_resource_requirement, hm]

/-- Witness for C4 on a two-entry registry and a pinned explicit list. -/
theorem claim_c4_witness :
    (∀ e ∈ ([(("a" : String)), "b"].map
        (fun n => (n, ResourceSpecification.mk "p" "1" .Txt ⟨false, [n]⟩ ⟨false, [n]⟩ n))),
      (e : String × ResourceSpecification).2.resource_name = e.1) ∧
    get_resource_requirement
        (.object (.ok ⟨some ⟨false, ["r"]⟩, some [⟨"a", some "sha1"⟩]⟩))
        ([("a" : String), "b"].map
          (fun n => (n, ResourceSpecification.mk "p" "1" .Txt ⟨false, [n]⟩ ⟨false, [n]⟩ n))) =
      .ok ⟨⟨false, ["r"]⟩, [⟨"a", some "sha1"⟩]⟩ ∧
    get_resource_requirement .null
        ([("a" : String), "b"].map
          (fun n => (n, ResourceSpecification.mk "p" "1" .Txt ⟨false, [n]⟩ ⟨false, [n]⟩ n))) =
      .ok ⟨defaultResourceRoot, [⟨"a", none⟩, ⟨"b", none⟩]⟩ := by
  refine ⟨by decide, ?_, ?_⟩
  · exact (claim_c4 _ ⟨some ⟨false, ["r"]⟩, some [⟨"a", some "sha1"⟩]⟩ (by decide)).1
      [⟨"a", some "sha1"⟩] rfl
  · exact (claim_c4 _ ⟨some ⟨false, ["r"]⟩, some [⟨"a", some "sha1"⟩]⟩ (by decide)).2.2

theorem insertReg_keys (reg : Registry) (name : String) (v : ResourceSpecification) :
    (insertReg reg name v).map (fun e => e.1) =
      if name ∈ reg.map (fun e => e.1) then reg.map (fun e => e.1)
      else reg.map (fun e => e.1) ++ [name] := by
  induction reg with
  | nil => simp [insertReg]
  | cons e rest ih =>
    by_cases he : e.1 = name
    · simp [insertReg, he]
    · have hne : ¬ name = e.1 := fun h => he h.symm
      by_cases hmem : name ∈ rest.map (fun e => e.1)
      · simp [insertReg, he, ih, hmem, hne]
      · simp [insertReg, he, ih, hmem, hne]

theorem insertReg_nodup (reg : Registry) (name : String) (v : ResourceSpecification)
    (h : (reg.map (fun e => e.1)).Nodup) :
    ((insertReg reg name v).map (fun e => e.1)).Nodup := by
  rw [insertReg_keys]
  by_cases hmem : name ∈ reg.map (fun e => e.1)
  · rw [if_pos hmem]
    exact h
  · rw [if_neg hmem]
    refine List.Nodup.append h (List.nodup_singleton name) ?_
    intro a ha hb
    rw [List.mem_singleton] at hb
    exact hmem (hb ▸ ha)

/-- C6: inserting a well-formed declaration never rejects the run; when the
resolved name is already present the later specification replaces the
earlier one and exactly one duplicate notification (naming the resolved
name, the replaced path and the new path) is emitted; when it is not
present no notification is emitted; other registry entries are untouched. -/
theorem claim_c6 (pkg : Package) (d : ResourceDataDeclaration) (reg : Registry)
    (fb : String) (md : FsPath)
    (hfile : d.crate_path.file_name = some fb)
    (habs1 : d.crate_path.is_absolute = false)
    (habs2 : (d.output_path.getD d.crate_path).is_absolute = false)
    (hman : pkg.manifest_path.parent = some md)
    (hnodup : (reg.map (fun e => e.1)).Nodup) :
    ∃ spec evs,
      processDeclaration pkg d reg = .ok (insertReg reg (d.resource_name.getD fb) spec, evs) ∧
      ((insertReg reg (d.resource_name.getD fb) spec).map (fun e => e.1)).Nodup ∧
      spec.full_crate_path = md.join d.crate_path ∧
      spec.resource_name = d.resource_name.getD fb ∧
      spec.declaring_crate_name = pkg.name ∧
      lookupReg (insertReg reg (d.resource_name.getD fb) spec) (d.resource_name.getD fb) =
        some spec ∧
      (∀ k, ¬ (d.resource_name.getD fb) = k →
        lookupReg (insertReg reg (d.resource_name.getD fb) spec) k = lookupReg reg k) ∧
      (∀ old, lookupReg reg (d.resource_name.getD fb) = some old →
        evs = [Event.duplicateResource (d.resource_name.getD fb) old.full_crate_path
                 (md.join d.crate_path)]) ∧
      (lookupReg reg (d.resource_name.getD fb) = none → evs = []) := by
  refine ⟨⟨pkg.name, pkg.version, d.encoding.getD ResourceEncoding.Txt,
    md.join d.crate_path, d.output_path.getD d.crate_path, d.resource_name.getD fb⟩,
    (match lookupReg reg (d.resource_name.getD fb) with
     | some old => [Event.duplicateResource (d.resource_name.getD fb) old.full_crate_path
         (md.join d.crate_path)]
     | none => []), ?_, insertReg_nodup reg _ _ hnodup, rfl, rfl, rfl, ?_, ?_, ?_, ?_⟩
  · simp only [processDeclaration, hfile, habs1, habs2, hman, Bool.false_eq_true, if_false]
  · rw [lookupReg_insertReg]
    simp
  · intro k hk
    rw [lookupReg_insertReg]
    simp [hk]
  · intro old hold
    rw [hold]
  · intro hnone
    rw [hnone]

/-- Witness for C6: packages `B` then `C` both declare `"logo"`; after
processing `C`'s declaration the registry entry's source path is `C`'s and
exactly one duplicate notification is emitted. -/
theorem claim_c6_witness :
    (∃ spec evs,
      processDeclaration ⟨"C", "C", "2.0.0", ⟨true, ["c", "Cargo.toml"]⟩, .absent, .null⟩
          ⟨none, ⟨false, ["img", "logo"]⟩, none, none⟩
          [("logo", ⟨"B", "1.0.0", .Txt, ⟨true, ["b", "img", "logo"]⟩, ⟨false, ["img", "logo"]⟩, "logo"⟩)] =
        .ok (insertReg
          [("logo", ⟨"B", "1.0.0", .Txt, ⟨true, ["b", "img", "logo"]⟩, ⟨false, ["img", "logo"]⟩, "logo"⟩)]
          "logo" spec, evs) ∧
      ((insertReg
          [("logo", ⟨"B", "1.0.0", .Txt, ⟨true, ["b", "img", "logo"]⟩, ⟨false, ["img", "logo"]⟩, "logo"⟩)]
          "logo" spec).map (fun e => e.1)).Nodup ∧
      spec.full_crate_path = FsPath.join ⟨true, ["c"]⟩ ⟨false, ["img", "logo"]⟩ ∧
      spec.resource_name = "logo" ∧
      spec.declaring_crate_name = "C" ∧
      lookupReg (insertReg
          [("logo", ⟨"B", "1.0.0", .Txt, ⟨true, ["b", "img", "logo"]⟩, ⟨false, ["img", "logo"]⟩, "logo"⟩)]
          "logo" spec) "logo" = some spec ∧
      (∀ k, ¬ ("logo" : String) = k →
        lookupReg (insertReg
            [("logo", ⟨"B", "1.0.0", .Txt, ⟨true, ["b", "img", "logo"]⟩, ⟨false, ["img", "logo"]⟩, "logo"⟩)]
            "logo" spec) k =
          lookupReg
            [("logo", ⟨"B", "1.0.0", .Txt, ⟨true, ["b", "img", "logo"]⟩, ⟨false, ["img", "logo"]⟩, "logo"⟩)] k) ∧
      (∀ old, lookupReg
            [("logo", ⟨"B", "1.0.0", .Txt, ⟨true, ["b", "img", "logo"]⟩, ⟨false, ["img", "logo"]⟩, "logo"⟩)]
            "logo" = some old →
        evs = [Event.duplicateResource "logo" old.full_crate_path
                 (FsPath.join ⟨true, ["c"]⟩ ⟨false, ["img", "logo"]⟩)]) ∧
      (lookupReg
          [("logo", ⟨"B", "1.0.0", .Txt, ⟨true, ["b", "img", "logo"]⟩, ⟨false, ["img", "logo"]⟩, "logo"⟩)]
          "logo" = none → evs = [])) :=
  claim_c6 ⟨"C", "C", "2.0.0", ⟨true, ["c", "Cargo.toml"]⟩, .absent, .null⟩
    ⟨none, ⟨false, ["img", "logo"]⟩, none, none⟩ _ "logo" ⟨true, ["c"]⟩
    (by decide) (by decide) (by decide) (by decide) (by decide)

theorem fsLe_fsCopy (cwd : List String) (fs : Fs) (src dst : FsPath) :
    FsLe fs (fsCopy cwd fs src dst).1 := by
  unfold fsCopy
  rcases fs.lookupFile (normalize cwd src) with _ | c
  · exact FsLe.refl fs
  · exact fsLe_setFile fs _ c

theorem fsLe_copy_resource (H : List Nat → String) (cwd : List String) (fs : Fs)
    (req : ResourceRequirement) (dec : ResourceSpecification) (root : FsPath) :
    FsLe fs (copy_resource H cwd fs req dec root).1 := by
  unfold copy_resource
  rcases hv : verify_resource_is_in_root cwd fs (root.join dec.output_path) root with ⟨fs1, r⟩
  have h1 : FsLe fs fs1 := by
    have h := fsLe_verify cwd fs (root.join dec.output_path) root
    rwa [hv] at h
  cases r with
  | error e => exact h1
  | ok u =>
    dsimp only
    rcases (root.join dec.output_path).parent with _ | od
    · exact h1
    · dsimp only
      have h2 : FsLe fs (create_output_directory cwd fs1 od) :=
        h1.trans (fsLe_create cwd fs1 od)
      rcases get_file_sha H cwd (create_output_directory cwd fs1 od) dec.full_crate_path
        with e | new_sha
      · exact h2
      · dsimp only
        split
        · exact h2
        · split
          · exact h2
          · split
            · exact h2
            · rcases hfc : fsCopy cwd (create_output_directory cwd fs1 od)
                dec.full_crate_path (root.join dec.output_path) with ⟨fs3, rc⟩
              have h3 : FsLe (create_output_directory cwd fs1 od) fs3 := by
                have h := fsLe_fsCopy cwd (create_output_directory cwd fs1 od)
                  dec.full_crate_path (root.join dec.output_path)
                rwa [hfc] at h
              cases rc <;> exact h2.trans h3

theorem fsLe_syncLoop (H : List Nat → String) (cwd : List String) (registry : Registry)
    (root : FsPath) (l : List ResourceRequirement) (fs : Fs) :
    FsLe fs (syncLoop H cwd registry root l fs).1 := by
  induction l generalizing fs with
  | nil => exact FsLe.refl fs
  | cons req rest ih =>
    unfold syncLoop
    rcases lookupReg registry req.resource_name with _ | dec
    · exact FsLe.refl fs
    · dsimp only
      rcases hc : copy_resource H cwd fs req dec root with ⟨fs1, r⟩
      have h1 : FsLe fs fs1 := by
        have h := fsLe_copy_resource H cwd fs req dec root
        rwa [hc] at h
      cases r with
      | err e => exact h1
      | panicked m => exact h1
      | ok ev =>
        dsimp only
        rcases hs : syncLoop H cwd registry root rest fs1 with ⟨fs2, r2⟩
        have h2 : FsLe fs1 fs2 := by
          have h := ih fs1
          rwa [hs] at h
        cases r2 with
        | ok pr =>
          rcases pr with ⟨evs, specs⟩
          exact h1.trans h2
        | err e => exact h1.trans h2
        | panicked m => exact h1.trans h2

/-- C1 (amended): the output root is the consumer-declared relative path
when given and the literal default `target/resources` otherwise, and the
synchronizer resolves it against the process working directory (after a
successful run the root exists at `normalize cwd root`, i.e. relative to
`cwd`, not to the consuming package's manifest directory). -/
theorem claim_c1_amended (H : List Nat → String) (ser : List ResourceSpecification → List Nat)
    (cwd : List String) (meta : ConsumerMeta) (reg : Registry) (fs fs' : Fs)
    (decl : ResourceConsumerDeclaration) (spec : ResourceConsumerSpecification)
    (evs : List Event)
    (hmeta : meta = .null ∧ decl = ⟨none, none⟩ ∨ meta = .object (.ok decl))
    (hok : get_resource_requirement meta reg = .ok spec)
    (hrun : collate_sync H ser cwd meta reg fs = (fs', .ok evs)) :
    spec.resource_root = decl.resource_root.getD defaultResourceRoot ∧
    fs'.pathExists (normalize cwd spec.resource_root) = true := by
  constructor
  · rcases hmeta with ⟨hm, hd⟩ | hm
    · subst hm
      subst hd
      unfold get_resource_requirement at hok
      cases hok
      rfl
    · subst hm
      unfold get_resource_requirement at hok
      dsimp only at hok
      cases hok
      rfl
  · unfold collate_sync at hrun
    rw [hok] at hrun
    dsimp only at hrun
    have hex : (create_output_directory cwd fs spec.resource_root).pathExists
        (normalize cwd spec.resource_root) = true :=
      pathExists_create cwd fs spec.resource_root
    by_cases hlen : spec.required_resources.length ≤ 0
    · rw [if_pos hlen] at hrun
      cases hrun
      exact hex
    · rw [if_neg hlen] at hrun
      rcases hs : syncLoop H cwd reg spec.resource_root spec.required_resources
          (create_output_directory cwd fs spec.resource_root) with ⟨fs2, r2⟩
      rw [hs] at hrun
      have h2 : FsLe (create_output_directory cwd fs spec.resource_root) fs2 := by
        have h := fsLe_syncLoop H cwd reg spec.resource_root spec.required_resources
          (create_output_directory cwd fs spec.resource_root)
        rwa [hs] at h
      cases r2 with
      | err e => cases hrun
      | panicked m => cases hrun
      | ok pr =>
        cases hrun
        exact (fsLe_setFile fs2 _ _) _ (h2 _ hex)

/-- Counterexample to C1 as stated: a full run with working directory
`/work` and consumer manifest `/elsewhere/pkg/Cargo.toml` (no declared
root) creates the default output root under `/work`, not under the
manifest directory `/elsewhere/pkg`, so the root is not interpreted
relative to the consuming package's manifest directory. -/
theorem claim_c1_counterexample :
    ∃ pr, collate_resources (fun _ => "") (fun _ => []) ["work"]
        ⟨true, ["elsewhere", "pkg", "Cargo.toml"]⟩
        ⟨[⟨"rootpkg", "rootpkg", "1.0.0", ⟨true, ["elsewhere", "pkg", "Cargo.toml"]⟩, .absent, .null⟩],
         [⟨"rootpkg", []⟩], some "rootpkg"⟩ 5
        ⟨[["work"], ["elsewhere"], ["elsewhere", "pkg"]],
         [(["elsewhere", "pkg", "Cargo.toml"], [1])]⟩ = some pr ∧
      pr.2 = .ok [Event.noResources] ∧
      pr.1.dirs.contains ["work", "target", "resources"] = true ∧
      pr.1.dirs.contains ["elsewhere", "pkg", "target", "resources"] = false ∧
      pr.1.pathExists ["elsewhere", "pkg", "target", "resources"] = false := by
  refine ⟨_, rfl, ?_, ?_, ?_, ?_⟩ <;> decide

theorem canonicalize_of_exists (cwd : List String) (fs : Fs) (p : FsPath)
    (h : fs.pathExists (normalize cwd p) = true) :
    canonicalize cwd fs p = some (normalize cwd p) := by
  simp [canonicalize, h]

theorem create_id (cwd : List String) (fs : Fs) (p : FsPath)
    (h : fs.pathExists (normalize cwd p) = true) :
    create_output_directory cwd fs p = fs := by
  simp [create_output_directory, h]

theorem fsLe_foldl_create (cwd : List String) (ps : List FsPath) (fs : Fs) :
    FsLe fs (ps.foldl (fun f x => create_output_directory cwd f x) fs) := by
  induction ps generalizing fs with
  | nil => exact FsLe.refl fs
  | cons x rest ih => exact (fsLe_create cwd fs x).trans (ih _)

theorem foldl_create_exists (cwd : List String) (ps : List FsPath) (fs : Fs) (q : FsPath)
    (hq : q ∈ ps) :
    (ps.foldl (fun f x => create_output_directory cwd f x) fs).pathExists
      (normalize cwd q) = true := by
  induction ps generalizing fs with
  | nil => cases hq
  | cons x rest ih =>
    rcases List.mem_cons.mp hq with h | h
    · subst h
      exact fsLe_foldl_create cwd rest (create_output_directory cwd fs q) _
        (pathExists_create cwd fs q)
    · exact ih (create_output_directory cwd fs x) h

theorem foldl_create_id (cwd : List String) (ps : List FsPath) (fs : Fs)
    (h : ∀ q ∈ ps, fs.pathExists (normalize cwd q) = true) :
    ps.foldl (fun f x => create_output_directory cwd f x) fs = fs := by
  induction ps with
  | nil => rfl
  | cons x rest ih =>
    simp only [List.foldl]
    rw [create_id cwd fs x (h x (List.mem_cons_self x rest))]
    exact ih (fun q hq => h q (List.mem_cons_of_mem x hq))

/-- The interim walk expressed as a fold over the list of partial paths. -/
theorem walkCreate_eq_foldl (cwd : List String) (fs : Fs) (p : FsPath) :
    walkCreate cwd fs p =
      ((List.range p.components.length).map
        (fun k => (⟨p.absolute, p.components.take (k + 1)⟩ : FsPath))).foldl
        (fun f x => create_output_directory cwd f x) fs := by
  unfold walkCreate
  rw [List.foldl_map]

theorem walkCreate_exists_take (cwd : List String) (fs : Fs) (p : FsPath) (k : Nat)
    (hk : k < p.components.length) :
    (walkCreate cwd fs p).pathExists
      (normalize cwd ⟨p.absolute, p.components.take (k + 1)⟩) = true := by
  rw [walkCreate_eq_foldl]
  exact foldl_create_exists cwd _ fs _
    (List.mem_map.mpr ⟨k, List.mem_range.mpr hk, rfl⟩)

theorem walkCreate_exists (cwd : List String) (fs : Fs) (p : FsPath)
    (hne : p.components ≠ []) :
    (walkCreate cwd fs p).pathExists (normalize cwd p) = true := by
  have hlen : 0 < p.components.length := List.length_pos.mpr hne
  have h := walkCreate_exists_take cwd fs p (p.components.length - 1)
    (by omega)
  have ht : p.components.length - 1 + 1 = p.components.length := by omega
  rw [ht, List.take_length] at h
  exact h

theorem walkCreate_id (cwd : List String) (fs : Fs) (p : FsPath)
    (h : ∀ k, k < p.components.length →
      fs.pathExists (normalize cwd ⟨p.absolute, p.components.take (k + 1)⟩) = true) :
    walkCreate cwd fs p = fs := by
  rw [walkCreate_eq_foldl]
  apply foldl_create_id
  intro q hq
  rcases List.mem_map.mp hq with ⟨k, hk, rfl⟩
  exact h k (List.mem_range.mp hk)

/-- Evaluation of `verify_resource_is_in_root` when the containment check
passes. -/
theorem verify_eval_ok (cwd : List String) (fs : Fs) (rp root par : FsPath)
    (hroot : fs.pathExists (normalize cwd root) = true)
    (hpar : rp.parent = some par)
    (hex : (walkCreate cwd fs par).pathExists (normalize cwd par) = true)
    (hpref : (normalize cwd root).isPrefixOf (normalize cwd par) = true) :
    verify_resource_is_in_root cwd fs rp root = (walkCreate cwd fs par, .ok ()) := by
  unfold verify_resource_is_in_root
  rw [canonicalize_of_exists cwd fs root hroot, hpar]
  dsimp only
  rw [canonicalize_of_exists cwd (walkCreate cwd fs par) par hex]
  simp [hpref]

/-- Evaluation of `verify_resource_is_in_root` when the canonical parent
escapes the canonical root. -/
theorem verify_eval_err (cwd : List String) (fs : Fs) (rp root par : FsPath)
    (hroot : fs.pathExists (normalize cwd root) = true)
    (hpar : rp.parent = some par)
    (hex : (walkCreate cwd fs par).pathExists (normalize cwd par) = true)
    (hpref : (normalize cwd root).isPrefixOf (normalize cwd par) = false) :
    verify_resource_is_in_root cwd fs rp root =
      (walkCreate cwd fs par,
       .error ("Cannot copy to " ++ renderAbs (normalize cwd par)
         ++ " as not in resource root " ++ renderAbs (normalize cwd root))) := by
  unfold verify_resource_is_in_root
  rw [canonicalize_of_exists cwd fs root hroot, hpar]
  dsimp only
  rw [canonicalize_of_exists cwd (walkCreate cwd fs par) par hex]
  simp [hpref]

/-- C2: when the canonicalized parent of the joined target path falls
outside the canonicalized output root, `copy_resource` fails with the
path-containment error and writes no file at all. -/
theorem claim_c2 (H : List Nat → String) (cwd : List String) (fs : Fs)
    (req : ResourceRequirement) (dec : ResourceSpecification) (root par : FsPath)
    (hroot : fs.pathExists (normalize cwd root) = true)
    (hpar : (root.join dec.output_path).parent = some par)
    (hparne : par.components ≠ [])
    (houtside : (normalize cwd root).isPrefixOf (normalize cwd par) = false) :
    copy_resource H cwd fs req dec root =
      (walkCreate cwd fs par,
       .err ("Cannot copy to " ++ renderAbs (normalize cwd par)
         ++ " as not in resource root " ++ renderAbs (normalize cwd root))) ∧
    (walkCreate cwd fs par).files = fs.files := by
  refine ⟨?_, files_walkCreate cwd fs par⟩
  unfold copy_resource
  rw [verify_eval_err cwd fs (root.join dec.output_path) root par hroot hpar
    (walkCreate_exists cwd fs par hparne) houtside]

/-- Witness for C2: the output path `../outside/evil.txt` escapes the root
`res`; the run fails with the containment error and no file is written. -/
theorem claim_c2_witness :
    (⟨[["work"], ["work", "res"], ["work", "src"]],
      [(["work", "src", "a.txt"], [7, 8])]⟩ : Fs).pathExists
        (normalize ["work"] ⟨false, ["res"]⟩) = true ∧
    ((⟨false, ["res"]⟩ : FsPath).join ⟨false, ["..", "outside", "evil.txt"]⟩).parent =
      some ⟨false, ["res", "..", "outside"]⟩ ∧
    (normalize ["work"] ⟨false, ["res"]⟩).isPrefixOf
      (normalize ["work"] ⟨false, ["res", "..", "outside"]⟩) = false ∧
    copy_resource (fun c => toString c) ["work"]
        ⟨[["work"], ["work", "res"], ["work", "src"]], [(["work", "src", "a.txt"], [7, 8])]⟩
        ⟨"evil", none⟩
        ⟨"b", "1.0.0", .Txt, ⟨false, ["src", "a.txt"]⟩, ⟨false, ["..", "outside", "evil.txt"]⟩, "evil"⟩
        ⟨false, ["res"]⟩ =
      (walkCreate ["work"]
        ⟨[["work"], ["work", "res"], ["work", "src"]], [(["work", "src", "a.txt"], [7, 8])]⟩
        ⟨false, ["res", "..", "outside"]⟩,
       .err ("Cannot copy to " ++ renderAbs (normalize ["work"] ⟨false, ["res", "..", "outside"]⟩)
         ++ " as not in resource root " ++ renderAbs (normalize ["work"] ⟨false, ["res"]⟩))) ∧
    (walkCreate ["work"]
        ⟨[["work"], ["work", "res"], ["work", "src"]], [(["work", "src", "a.txt"], [7, 8])]⟩
        ⟨false, ["res", "..", "outside"]⟩).files =
      [(["work", "src", "a.txt"], [7, 8])] :=
  ⟨by decide, by decide, by decide,
    (claim_c2 (fun c => toString c) ["work"] _ ⟨"evil", none⟩
      ⟨"b", "1.0.0", .Txt, ⟨false, ["src", "a.txt"]⟩, ⟨false, ["..", "outside", "evil.txt"]⟩, "evil"⟩
      ⟨false, ["res"]⟩ ⟨false, ["res", "..", "outside"]⟩
      (by decide) (by decide) (by decide) (by decide)).1,
    (claim_c2 (fun c => toString c) ["work"] _ ⟨"evil", none⟩
      ⟨"b", "1.0.0", .Txt, ⟨false, ["src", "a.txt"]⟩, ⟨false, ["..", "outside", "evil.txt"]⟩, "evil"⟩
      ⟨false, ["res"]⟩ ⟨false, ["res", "..", "outside"]⟩
      (by decide) (by decide) (by decide) (by decide)).2⟩

/-- C5: a requirement pinning a hash different from the computed digest of
the declared source file fails with the hash-mismatch error naming both
values, and no file is copied (file contents unchanged). -/
theorem claim_c5 (H : List Nat → String) (cwd : List String) (fs : Fs)
    (req : ResourceRequirement) (dec : ResourceSpecification) (root par : FsPath)
    (c : List Nat) (r : String)
    (hroot : fs.pathExists (normalize cwd root) = true)
    (hpar : (root.join dec.output_path).parent = some par)
    (hparne : par.components ≠ [])
    (hpref : (normalize cwd root).isPrefixOf (normalize cwd par) = true)
    (hsrc : fs.lookupFile (normalize cwd dec.full_crate_path) = some c)
    (hreq : req.required_sha = some r)
    (hne : ¬ r = H c) :
    copy_resource H cwd fs req dec root =
      (walkCreate cwd fs par, .err (hashMismatchMsg req.resource_name (H c) r)) ∧
    (walkCreate cwd fs par).files = fs.files := by
  have hW : (walkCreate cwd fs par).files = fs.files := files_walkCreate cwd fs par
  refine ⟨?_, hW⟩
  unfold copy_resource
  rw [verify_eval_ok cwd fs (root.join dec.output_path) root par hroot hpar
    (walkCreate_exists cwd fs par hparne) hpref]
  dsimp only
  rw [hpar]
  dsimp only
  rw [create_id cwd (walkCreate cwd fs par) par (walkCreate_exists cwd fs par hparne)]
  have hsha : get_file_sha H cwd (walkCreate cwd fs par) dec.full_crate_path = .ok (H c) := by
    unfold get_file_sha
    show (match (walkCreate cwd fs par).lookupFile (normalize cwd dec.full_crate_path) with
      | some content => Except.ok (H content)
      | none => _) = _
    unfold Fs.lookupFile
    rw [hW]
    rw [show lookupList fs.files (normalize cwd dec.full_crate_path) = some c from hsrc]
  rw [hsha]
  dsimp only
  rw [hreq]
  simp [hne]

/-- Witness for C5: a pinned hash `"bad"` never matches the digest of the
source file, so the run fails with the mismatch message and the
destination is never written. -/
theorem claim_c5_witness :
    (⟨[["work"], ["work", "res"], ["work", "src"]],
      [(["work", "src", "a.txt"], [7, 8])]⟩ : Fs).lookupFile
        (normalize ["work"] ⟨false, ["src", "a.txt"]⟩) = some [7, 8] ∧
    ¬ ("bad" : String) = (fun c => toString c) [7, 8] ∧
    copy_resource (fun c => toString c) ["work"]
        ⟨[["work"], ["work", "res"], ["work", "src"]], [(["work", "src", "a.txt"], [7, 8])]⟩
        ⟨"a", some "bad"⟩
        ⟨"b", "1.0.0", .Txt, ⟨false, ["src", "a.txt"]⟩, ⟨false, ["sub", "a.txt"]⟩, "a"⟩
        ⟨false, ["res"]⟩ =
      (walkCreate ["work"]
        ⟨[["work"], ["work", "res"], ["work", "src"]], [(["work", "src", "a.txt"], [7, 8])]⟩
        ⟨false, ["res", "sub"]⟩,
       .err (hashMismatchMsg "a" ((fun c => toString c) [7, 8]) "bad")) ∧
    (walkCreate ["work"]
        ⟨[["work"], ["work", "res"], ["work", "src"]], [(["work", "src", "a.txt"], [7, 8])]⟩
        ⟨false, ["res", "sub"]⟩).files =
      [(["work", "src", "a.txt"], [7, 8])] := by
  refine ⟨by decide, by decide, ?_, ?_⟩
  · exact (claim_c5 (fun c => toString c) ["work"] _ ⟨"a", some "bad"⟩
      ⟨"b", "1.0.0", .Txt, ⟨false, ["src", "a.txt"]⟩, ⟨false, ["sub", "a.txt"]⟩, "a"⟩
      ⟨false, ["res"]⟩ ⟨false, ["res", "sub"]⟩ [7, 8] "bad"
      (by decide) (by decide) (by decide) (by decide) (by decide) rfl (by decide)).1
  · exact (claim_c5 (fun c => toString c) ["work"] _ ⟨"a", some "bad"⟩
      ⟨"b", "1.0.0", .Txt, ⟨false, ["src", "a.txt"]⟩, ⟨false, ["sub", "a.txt"]⟩, "a"⟩
      ⟨false, ["res"]⟩ ⟨false, ["res", "sub"]⟩ [7, 8] "bad"
      (by decide) (by decide) (by decide) (by decide) (by decide) rfl (by decide)).2

/-- Full evaluation of `copy_resource` on a run whose containment check
passes, whose source file is readable and whose pinned hash (if any)
matches: the copy is performed exactly when the destination is missing or
its digest differs. -/
theorem copy_eval_general (H : List Nat → String) (cwd : List String) (fs : Fs)
    (req : ResourceRequirement) (dec : ResourceSpecification) (root par : FsPath)
    (c : List Nat)
    (hroot : fs.pathExists (normalize cwd root) = true)
    (hpar : (root.join dec.output_path).parent = some par)
    (hparne : par.components ≠ [])
    (hpref : (normalize cwd root).isPrefixOf (normalize cwd par) = true)
    (hsrc : fs.lookupFile (normalize cwd dec.full_crate_path) = some c)
    (hpin : req.required_sha = none ∨ req.required_sha = some (H c))
    (hne : ¬ normalize cwd (root.join dec.output_path) = [])
    (hnodir : (walkCreate cwd fs par).dirs.contains
      (normalize cwd (root.join dec.output_path)) = false) :
    copy_resource H cwd fs req dec root =
      (if destHashMatches H fs (normalize cwd (root.join dec.output_path)) c
         then walkCreate cwd fs par
         else (walkCreate cwd fs par).setFile (normalize cwd (root.join dec.output_path)) c,
       .ok (Event.resourceReport
         (destHashMatches H fs (normalize cwd (root.join dec.output_path)) c)
         (H c) (root.join dec.output_path))) := by
  have hW : (walkCreate cwd fs par).files = fs.files := files_walkCreate cwd fs par
  unfold copy_resource
  rw [verify_eval_ok cwd fs (root.join dec.output_path) root par hroot hpar
    (walkCreate_exists cwd fs par hparne) hpref]
  dsimp only
  rw [hpar]
  dsimp only
  rw [create_id cwd (walkCreate cwd fs par) par (walkCreate_exists cwd fs par hparne)]
  have hsha : get_file_sha H cwd (walkCreate cwd fs par) dec.full_crate_path = .ok (H c) := by
    unfold get_file_sha Fs.lookupFile
    rw [hW]
    rw [show lookupList fs.files (normalize cwd dec.full_crate_path) = some c from hsrc]
  rw [hsha]
  dsimp only
  have hpin2 : (match req.required_sha with
      | some r => if r ≠ H c then some (hashMismatchMsg req.resource_name (H c) r) else none
      | none => none) = none := by
    rcases hpin with hp | hp <;> rw [hp] <;> simp
  rw [hpin2]
  dsimp only
  have hWp : (walkCreate cwd fs par).pathExists (normalize cwd (root.join dec.output_path)) =
      (lookupList fs.files (normalize cwd (root.join dec.output_path))).isSome := by
    unfold Fs.pathExists
    rw [hW, hnodir]
    simp [hne]
  rcases hdest : lookupList fs.files (normalize cwd (root.join dec.output_path)) with _ | cOld
  · have hfalse : destHashMatches H fs (normalize cwd (root.join dec.output_path)) c = false := by
      unfold destHashMatches
      rw [hdest]
    rw [hWp, hdest]
    dsimp only [Option.isSome]
    simp only [Bool.false_eq_true, if_false]
    have hcopy : fsCopy cwd (walkCreate cwd fs par) dec.full_crate_path
        (root.join dec.output_path) =
        ((walkCreate cwd fs par).setFile (normalize cwd (root.join dec.output_path)) c,
         .ok ()) := by
      unfold fsCopy Fs.lookupFile
      rw [hW]
      rw [show lookupList fs.files (normalize cwd dec.full_crate_path) = some c from hsrc]
    rw [hcopy, hfalse]
    simp
  · have hBdef : destHashMatches H fs (normalize cwd (root.join dec.output_path)) c =
        decide (H cOld = H c) := by
      unfold destHashMatches
      rw [hdest]
    rw [hWp, hdest]
    dsimp only [Option.isSome]
    simp only [if_true]
    have hsha2 : get_file_sha H cwd (walkCreate cwd fs par) (root.join dec.output_path) =
        .ok (H cOld) := by
      unfold get_file_sha Fs.lookupFile
      rw [hW]
      rw [show lookupList fs.files (normalize cwd (root.join dec.output_path)) = some cOld
        from hdest]
    rw [hsha2]
    dsimp only [Except.map]
    rcases hB : decide (H cOld = H c) with _ | _
    · simp only [Bool.false_eq_true, if_false]
      have hcopy : fsCopy cwd (walkCreate cwd fs par) dec.full_crate_path
          (root.join dec.output_path) =
          ((walkCreate cwd fs par).setFile (normalize cwd (root.join dec.output_path)) c,
           .ok ()) := by
        unfold fsCopy Fs.lookupFile
        rw [hW]
        rw [show lookupList fs.files (normalize cwd dec.full_crate_path) = some c from hsrc]
      rw [hcopy, hBdef, hB]
      simp
    · rw [hBdef, hB]
      simp

/-- C3: the copy is performed if and only if the destination file is
missing or its digest differs from the source digest (the report event
carries the already-existed flag accordingly, and the file contents change
exactly in the copy case); running `copy_resource` again on the resulting
state performs no copy and leaves the state unchanged. -/
theorem claim_c3 (H : List Nat → String) (cwd : List String) (fs : Fs)
    (req : ResourceRequirement) (dec : ResourceSpecification) (root par : FsPath)
    (c : List Nat)
    (hroot : fs.pathExists (normalize cwd root) = true)
    (hpar : (root.join dec.output_path).parent = some par)
    (hparne : par.components ≠ [])
    (hpref : (normalize cwd root).isPrefixOf (normalize cwd par) = true)
    (hsrc : fs.lookupFile (normalize cwd dec.full_crate_path) = some c)
    (hpin : req.required_sha = none ∨ req.required_sha = some (H c))
    (hne : ¬ normalize cwd (root.join dec.output_path) = [])
    (hnodir : (walkCreate cwd fs par).dirs.contains
      (normalize cwd (root.join dec.output_path)) = false) :
    copy_resource H cwd fs req dec root =
      (if destHashMatches H fs (normalize cwd (root.join dec.output_path)) c
         then walkCreate cwd fs par
         else (walkCreate cwd fs par).setFile (normalize cwd (root.join dec.output_path)) c,
       .ok (Event.resourceReport
         (destHashMatches H fs (normalize cwd (root.join dec.output_path)) c)
         (H c) (root.join dec.output_path))) ∧
    (if destHashMatches H fs (normalize cwd (root.join dec.output_path)) c
       then walkCreate cwd fs par
       else (walkCreate cwd fs par).setFile (normalize cwd (root.join dec.output_path)) c).files =
      (if destHashMatches H fs (normalize cwd (root.join dec.output_path)) c
         then fs.files
         else setFileList fs.files (normalize cwd (root.join dec.output_path)) c) ∧
    copy_resource H cwd
      (if destHashMatches H fs (normalize cwd (root.join dec.output_path)) c
         then walkCreate cwd fs par
         else (walkCreate cwd fs par).setFile (normalize cwd (root.join dec.output_path)) c)
      req dec root =
      (if destHashMatches H fs (normalize cwd (root.join dec.output_path)) c
         then walkCreate cwd fs par
         else (walkCreate cwd fs par).setFile (normalize cwd (root.join dec.output_path)) c,
       .ok (Event.resourceReport true (H c) (root.join dec.output_path))) := by
  have hW : (walkCreate cwd fs par).files = fs.files := files_walkCreate cwd fs par
  have hfirst := copy_eval_general H cwd fs req dec root par c hroot hpar hparne hpref hsrc
    hpin hne hnodir
  refine ⟨hfirst, ?_, ?_⟩
  · rcases hB : destHashMatches H fs (normalize cwd (root.join dec.output_path)) c with _ | _
    · simp only [Bool.false_eq_true, if_false]
      show setFileList (walkCreate cwd fs par).files _ c = _
      rw [hW]
    · simp only [if_true]
      exact hW
  · have hleWF : FsLe (walkCreate cwd fs par)
        (if destHashMatches H fs (normalize cwd (root.join dec.output_path)) c
           then walkCreate cwd fs par
           else (walkCreate cwd fs par).setFile (normalize cwd (root.join dec.output_path)) c) := by
      rcases hB : destHashMatches H fs (normalize cwd (root.join dec.output_path)) c with _ | _
      · simp only [Bool.false_eq_true, if_false]
        exact fsLe_setFile _ _ c
      · simp only [if_true]
        exact FsLe.refl _
    have hdirsF :
        (if destHashMatches H fs (normalize cwd (root.join dec.output_path)) c
           then walkCreate cwd fs par
           else (walkCreate cwd fs par).setFile (normalize cwd (root.join dec.output_path)) c).dirs =
          (walkCreate cwd fs par).dirs := by
      rcases hB : destHashMatches H fs (normalize cwd (root.join dec.output_path)) c with _ | _ <;>
        simp only [Bool.false_eq_true, if_false, if_true] <;> rfl
    have hrootF :
        (if destHashMatches H fs (normalize cwd (root.join dec.output_path)) c
           then walkCreate cwd fs par
           else (walkCreate cwd fs par).setFile
             (normalize cwd (root.join dec.output_path)) c).pathExists
          (normalize cwd root) = true :=
      hleWF _ ((fsLe_walkCreate cwd fs par) _ hroot)
    have hwalkF : walkCreate cwd
        (if destHashMatches H fs (normalize cwd (root.join dec.output_path)) c
           then walkCreate cwd fs par
           else (walkCreate cwd fs par).setFile (normalize cwd (root.join dec.output_path)) c)
        par =
        (if destHashMatches H fs (normalize cwd (root.join dec.output_path)) c
           then walkCreate cwd fs par
           else (walkCreate cwd fs par).setFile
             (normalize cwd (root.join dec.output_path)) c) := by
      apply walkCreate_id
      intro k hk
      exact hleWF _ (walkCreate_exists_take cwd fs par k hk)
    have hnodirF : (walkCreate cwd
        (if destHashMatches H fs (normalize cwd (root.join dec.output_path)) c
           then walkCreate cwd fs par
           else (walkCreate cwd fs par).setFile (normalize cwd (root.join dec.output_path)) c)
        par).dirs.contains (normalize cwd (root.join dec.output_path)) = false := by
      rw [hwalkF, hdirsF]
      exact hnodir
    have hsrcF :
        (if destHashMatches H fs (normalize cwd (root.join dec.output_path)) c
           then walkCreate cwd fs par
           else (walkCreate cwd fs par).setFile
             (normalize cwd (root.join dec.output_path)) c).lookupFile
          (normalize cwd dec.full_crate_path) = some c := by
      rcases hB : destHashMatches H fs (normalize cwd (root.join dec.output_path)) c with _ | _
      · simp only [Bool.false_eq_true, if_false]
        show lookupList (setFileList (walkCreate cwd fs par).files _ c) _ = some c
        rw [hW, lookupList_setFileList]
        by_cases hsn : normalize cwd dec.full_crate_path =
            normalize cwd (root.join dec.output_path)
        · rw [if_pos hsn]
        · rw [if_neg hsn]
          exact hsrc
      · simp only [if_true]
        show lookupList (walkCreate cwd fs par).files _ = some c
        rw [hW]
        exact hsrc
    have hdestF : destHashMatches H
        (if destHashMatches H fs (normalize cwd (root.join dec.output_path)) c
           then walkCreate cwd fs par
           else (walkCreate cwd fs par).setFile (normalize cwd (root.join dec.output_path)) c)
        (normalize cwd (root.join dec.output_path)) c = true := by
      rcases hB : destHashMatches H fs (normalize cwd (root.join dec.output_path)) c with _ | _
      · simp only [Bool.false_eq_true, if_false]
        unfold destHashMatches
        show (match lookupList (setFileList (walkCreate cwd fs par).files _ c) _ with
          | some cOld => decide (H cOld = H c)
          | none => false) = true
        rw [hW, lookupList_setFileList, if_pos rfl]
        simp
      · simp only [if_true]
        unfold destHashMatches at hB ⊢
        show (match lookupList (walkCreate cwd fs par).files _ with
          | some cOld => decide (H cOld = H c)
          | none => false) = true
        rw [hW]
        exact hB
    have hsecond := copy_eval_general H cwd
      (if destHashMatches H fs (normalize cwd (root.join dec.output_path)) c
         then walkCreate cwd fs par
         else (walkCreate cwd fs par).setFile (normalize cwd (root.join dec.output_path)) c)
      req dec root par c hrootF hpar hparne hpref hsrcF hpin hne hnodirF
    rw [hsecond, hdestF, hwalkF]
    simp

/-- Witness for C3: a first run copies (the destination is missing, so the
skip condition is false), and the second run on the resulting state reports
"existed" and performs no copy. -/
theorem claim_c3_witness :
    destHashMatches (fun c => toString c) (⟨[["work"], ["work", "res"], ["work", "src"]], [(["work", "src", "a.txt"], [7, 8])]⟩ : Fs) (normalize ["work"] (FsPath.join ⟨false, ["res"]⟩ ⟨false, ["sub", "a.txt"]⟩)) [7, 8] = false ∧
    copy_resource (fun c => toString c) ["work"]
        ⟨[["work"], ["work", "res"], ["work", "src"]], [(["work", "src", "a.txt"], [7, 8])]⟩
        ⟨"a", none⟩
        ⟨"b", "1.0.0", .Txt, ⟨false, ["src", "a.txt"]⟩, ⟨false, ["sub", "a.txt"]⟩, "a"⟩
        ⟨false, ["res"]⟩ =
      ((if destHashMatches (fun c => toString c) (⟨[["work"], ["work", "res"], ["work", "src"]], [(["work", "src", "a.txt"], [7, 8])]⟩ : Fs) (normalize ["work"] (FsPath.join ⟨false, ["res"]⟩ ⟨false, ["sub", "a.txt"]⟩)) [7, 8] then walkCreate ["work"] (⟨[["work"], ["work", "res"], ["work", "src"]], [(["work", "src", "a.txt"], [7, 8])]⟩ : Fs) (⟨false, ["res", "sub"]⟩ : FsPath) else (walkCreate ["work"] (⟨[["work"], ["work", "res"], ["work", "src"]], [(["work", "src", "a.txt"], [7, 8])]⟩ : Fs) (⟨false, ["res", "sub"]⟩ : FsPath)).setFile (normalize ["work"] (FsPath.join ⟨false, ["res"]⟩ ⟨false, ["sub", "a.txt"]⟩)) [7, 8]),
       .ok (Event.resourceReport (destHashMatches (fun c => toString c) (⟨[["work"], ["work", "res"], ["work", "src"]], [(["work", "src", "a.txt"], [7, 8])]⟩ : Fs) (normalize ["work"] (FsPath.join ⟨false, ["res"]⟩ ⟨false, ["sub", "a.txt"]⟩)) [7, 8]) ((fun c => toString c) [7, 8]) (FsPath.join ⟨false, ["res"]⟩ ⟨false, ["sub", "a.txt"]⟩))) ∧
    copy_resource (fun c => toString c) ["work"]
        (if destHashMatches (fun c => toString c) (⟨[["work"], ["work", "res"], ["work", "src"]], [(["work", "src", "a.txt"], [7, 8])]⟩ : Fs) (normalize ["work"] (FsPath.join ⟨false, ["res"]⟩ ⟨false, ["sub", "a.txt"]⟩)) [7, 8] then walkCreate ["work"] (⟨[["work"], ["work", "res"], ["work", "src"]], [(["work", "src", "a.txt"], [7, 8])]⟩ : Fs) (⟨false, ["res", "sub"]⟩ : FsPath) else (walkCreate ["work"] (⟨[["work"], ["work", "res"], ["work", "src"]], [(["work", "src", "a.txt"], [7, 8])]⟩ : Fs) (⟨false, ["res", "sub"]⟩ : FsPath)).setFile (normalize ["work"] (FsPath.join ⟨false, ["res"]⟩ ⟨false, ["sub", "a.txt"]⟩)) [7, 8])
        ⟨"a", none⟩
        ⟨"b", "1.0.0", .Txt, ⟨false, ["src", "a.txt"]⟩, ⟨false, ["sub", "a.txt"]⟩, "a"⟩
        ⟨false, ["res"]⟩ =
      ((if destHashMatches (fun c => toString c) (⟨[["work"], ["work", "res"], ["work", "src"]], [(["work", "src", "a.txt"], [7, 8])]⟩ : Fs) (normalize ["work"] (FsPath.join ⟨false, ["res"]⟩ ⟨false, ["sub", "a.txt"]⟩)) [7, 8] then walkCreate ["work"] (⟨[["work"], ["work", "res"], ["work", "src"]], [(["work", "src", "a.txt"], [7, 8])]⟩ : Fs) (⟨false, ["res", "sub"]⟩ : FsPath) else (walkCreate ["work"] (⟨[["work"], ["work", "res"], ["work", "src"]], [(["work", "src", "a.txt"], [7, 8])]⟩ : Fs) (⟨false, ["res", "sub"]⟩ : FsPath)).setFile (normalize ["work"] (FsPath.join ⟨false, ["res"]⟩ ⟨false, ["sub", "a.txt"]⟩)) [7, 8]),
       .ok (Event.resourceReport true ((fun c => toString c) [7, 8]) (FsPath.join ⟨false, ["res"]⟩ ⟨false, ["sub", "a.txt"]⟩))) :=
  ⟨by decide,
   (claim_c3 (fun c => toString c) ["work"]
      ⟨[["work"], ["work", "res"], ["work", "src"]], [(["work", "src", "a.txt"], [7, 8])]⟩
      ⟨"a", none⟩
      ⟨"b", "1.0.0", .Txt, ⟨false, ["src", "a.txt"]⟩, ⟨false, ["sub", "a.txt"]⟩, "a"⟩
      ⟨false, ["res"]⟩ ⟨false, ["res", "sub"]⟩ [7, 8]
      (by decide) (by decide) (by decide) (by decide) (by decide) (Or.inl rfl)
      (by decide) (by decide)).1,
   (claim_c3 (fun c => toString c) ["work"]
      ⟨[["work"], ["work", "res"], ["work", "src"]], [(["work", "src", "a.txt"], [7, 8])]⟩
      ⟨"a", none⟩
      ⟨"b", "1.0.0", .Txt, ⟨false, ["src", "a.txt"]⟩, ⟨false, ["sub", "a.txt"]⟩, "a"⟩
      ⟨false, ["res"]⟩ ⟨false, ["res", "sub"]⟩ [7, 8]
      (by decide) (by decide) (by decide) (by decide) (by decide) (Or.inl rfl)
      (by decide) (by decide)).2.2⟩

/-! ### Dependency-filter lemmas -/

theorem findNode_some {nodes : List Node} {d : String} {n : Node}
    (h : findNode nodes d = some n) : n.id = d ∧ n ∈ nodes := by
  unfold findNode at h
  refine ⟨?_, List.mem_of_find?_eq_some h⟩
  have hp := List.find?_some h
  simpa using hp

theorem pushDeps_mem {nodes : List Node} {processed : List String} :
    ∀ {deps : List String} {stack s2 : List Node},
      pushDeps nodes processed deps stack = .ok s2 →
      ∀ e ∈ s2, e ∈ stack ∨ e ∈ nodes := by
  intro deps
  induction deps with
  | nil =>
    intro stack s2 h e he
    cases h
    exact Or.inl he
  | cons d rest ih =>
    intro stack s2 h e he
    unfold pushDeps at h
    by_cases hd : d ∈ processed
    · rw [if_pos hd] at h
      exact ih h e he
    · rw [if_neg hd] at h
      rcases hf : findNode nodes d with _ | n
      · rw [hf] at h
        cases h
      · rw [hf] at h
        rcases ih h e he with h' | h'
        · rcases List.mem_cons.mp h' with h'' | h''
          · exact Or.inr (h'' ▸ (findNode_some hf).2)
          · exact Or.inl h''
        · exact Or.inr h'

theorem pushDeps_stack_sub {nodes : List Node} {processed : List String} :
    ∀ {deps : List String} {stack s2 : List Node},
      pushDeps nodes processed deps stack = .ok s2 →
      ∀ e ∈ stack, e ∈ s2 := by
  intro deps
  induction deps with
  | nil =>
    intro stack s2 h e he
    cases h
    exact he
  | cons d rest ih =>
    intro stack s2 h e he
    unfold pushDeps at h
    by_cases hd : d ∈ processed
    · rw [if_pos hd] at h
      exact ih h e he
    · rw [if_neg hd] at h
      rcases hf : findNode nodes d with _ | n
      · rw [hf] at h
        cases h
      · rw [hf] at h
        exact ih h e (List.mem_cons_of_mem n he)

theorem pushDeps_shape {nodes : List Node} {processed : List String} :
    ∀ {deps : List String} {stack s2 : List Node},
      pushDeps nodes processed deps stack = .ok s2 →
      s2 = stack ∨ ∃ y t, s2 = y :: t ∧ ¬ y.id ∈ processed ∧ y ∈ nodes ∧
        (∀ e ∈ t, e ∈ stack ∨ e ∈ nodes) := by
  intro deps
  induction deps with
  | nil =>
    intro stack s2 h
    cases h
    exact Or.inl rfl
  | cons d rest ih =>
    intro stack s2 h
    unfold pushDeps at h
    by_cases hd : d ∈ processed
    · rw [if_pos hd] at h
      exact ih h
    · rw [if_neg hd] at h
      rcases hf : findNode nodes d with _ | n
      · rw [hf] at h
        cases h
      · rw [hf] at h
        rcases findNode_some hf with ⟨hid, hmem⟩
        rcases ih h with h' | ⟨y, t, heq, hynp, hyn, htm⟩
        · exact Or.inr ⟨n, stack, h', hid ▸ hd, hmem, fun e he => Or.inl he⟩
        · refine Or.inr ⟨y, t, heq, hynp, hyn, fun e he => ?_⟩
          rcases htm e he with h'' | h''
          · rcases List.mem_cons.mp h'' with h3 | h3
            · exact Or.inr (h3 ▸ hmem)
            · exact Or.inl h3
          · exact Or.inr h''

theorem pushDeps_deps {nodes : List Node} {processed : List String} :
    ∀ {deps : List String} {stack s2 : List Node},
      pushDeps nodes processed deps stack = .ok s2 →
      ∀ d ∈ deps, d ∈ processed ∨ ∃ e ∈ s2, e.id = d := by
  intro deps
  induction deps with
  | nil =>
    intro stack s2 h d hd
    cases hd
  | cons d0 rest ih =>
    intro stack s2 h d hd
    unfold pushDeps at h
    by_cases hd0 : d0 ∈ processed
    · rw [if_pos hd0] at h
      rcases List.mem_cons.mp hd with h' | h'
      · exact Or.inl (h' ▸ hd0)
      · exact ih h d h'
    · rw [if_neg hd0] at h
      rcases hf : findNode nodes d0 with _ | n
      · rw [hf] at h
        cases h
      · rw [hf] at h
        rcases List.mem_cons.mp hd with h' | h'
        · subst h'
          exact Or.inr ⟨n, pushDeps_stack_sub h n (List.mem_cons_self n stack),
            (findNode_some hf).1⟩
        · exact ih h d h'

theorem pushDeps_src {nodes : List Node} {processed : List String} :
    ∀ {deps : List String} {stack s2 : List Node},
      pushDeps nodes processed deps stack = .ok s2 →
      ∀ e ∈ s2, e ∈ stack ∨ ∃ d ∈ deps, findNode nodes d = some e := by
  intro deps
  induction deps with
  | nil =>
    intro stack s2 h e he
    cases h
    exact Or.inl he
  | cons d0 rest ih =>
    intro stack s2 h e he
    unfold pushDeps at h
    by_cases hd0 : d0 ∈ processed
    · rw [if_pos hd0] at h
      rcases ih h e he with h' | ⟨d, hd, hfd⟩
      · exact Or.inl h'
      · exact Or.inr ⟨d, List.mem_cons_of_mem d0 hd, hfd⟩
    · rw [if_neg hd0] at h
      rcases hf : findNode nodes d0 with _ | n
      · rw [hf] at h
        cases h
      · rw [hf] at h
        rcases ih h e he with h' | ⟨d, hd, hfd⟩
        · rcases List.mem_cons.mp h' with h'' | h''
          · exact Or.inr ⟨d0, List.mem_cons_self d0 rest, h'' ▸ hf⟩
          · exact Or.inl h''
        · exact Or.inr ⟨d, List.mem_cons_of_mem d0 hd, hfd⟩

theorem pushDeps_no_error {nodes : List Node} {processed : List String} :
    ∀ {deps : List String} {stack : List Node},
      (∀ d ∈ deps, (findNode nodes d).isSome = true) →
      ∃ s2, pushDeps nodes processed deps stack = .ok s2 := by
  intro deps
  induction deps with
  | nil =>
    intro stack _
    exact ⟨stack, rfl⟩
  | cons d rest ih =>
    intro stack hall
    unfold pushDeps
    by_cases hd : d ∈ processed
    · rw [if_pos hd]
      exact ih (fun x hx => hall x (List.mem_cons_of_mem d hx))
    · rw [if_neg hd]
      rcases hf : findNode nodes d with _ | n
      · have := hall d (List.mem_cons_self d rest)
        rw [hf] at this
        cases this
      · exact ih (fun x hx => hall x (List.mem_cons_of_mem d hx))

theorem filter_length_lt {α : Type} (l : List α) (p q : α → Bool)
    (himp : ∀ x, q x = true → p x = true) (a : α) (ha : a ∈ l)
    (hpa : p a = true) (hqa : q a = false) :
    (l.filter q).length < (l.filter p).length := by
  have hsub : List.Sublist (l.filter q) (l.filter p) := by
    apply List.monotone_filter_right
    intro x hx
    exact himp x hx
  rcases Nat.lt_or_ge (l.filter q).length (l.filter p).length with h | h
  · exact h
  · exfalso
    have hlen : (l.filter q).length = (l.filter p).length :=
      Nat.le_antisymm hsub.length_le h
    have heq : l.filter q = l.filter p := hsub.eq_of_length hlen
    have haq : a ∈ l.filter p := List.mem_filter.mpr ⟨ha, hpa⟩
    rw [← heq] at haq
    have hq := (List.mem_filter.mp haq).2
    rw [hqa] at hq
    cases hq

theorem mem_insertSet_self (idv : String) (s : List String) : idv ∈ insertSet idv s := by
  unfold insertSet
  by_cases h : idv ∈ s
  · rw [if_pos h]
    exact h
  · rw [if_neg h]
    exact List.mem_cons_self idv s

theorem mem_insertSet_of_mem {i idv : String} {s : List String} (h : i ∈ s) :
    i ∈ insertSet idv s := by
  unfold insertSet
  by_cases h' : idv ∈ s
  · rw [if_pos h']
    exact h
  · rw [if_neg h']
    exact List.mem_cons_of_mem idv h

theorem mem_insertSet_elim {i idv : String} {s : List String} (h : i ∈ insertSet idv s) :
    i = idv ∨ i ∈ s := by
  unfold insertSet at h
  by_cases h' : idv ∈ s
  · rw [if_pos h'] at h
    exact Or.inr h
  · rw [if_neg h'] at h
    exact List.mem_cons.mp h

theorem unprocCount_lt (nodes : List Node) (processed : List String) (x : Node)
    (hx : x ∈ nodes) (hnp : ¬ x.id ∈ processed) :
    unprocCount nodes (insertSet x.id processed) < unprocCount nodes processed := by
  unfold unprocCount
  apply filter_length_lt _ _ _ ?_ x.id (List.mem_map.mpr ⟨x, hx, rfl⟩) ?_ ?_
  · intro i hi
    simp only [decide_eq_true_eq] at hi ⊢
    intro hmem
    exact hi (mem_insertSet_of_mem hmem)
  · simpa using hnp
  · simpa using mem_insertSet_self x.id processed

theorem depLoop_sub {packages : List String} {nodes : List Node} :
    ∀ {fuel : Nat} {processed : List String} {stack : List Node} {final : List String},
      depLoop packages nodes fuel processed stack = some (.ok final) →
      (∀ i ∈ processed, i ∈ final) ∧ (∀ e ∈ stack, e.id ∈ final) := by
  intro fuel
  induction fuel with
  | zero =>
    intro processed stack final h
    cases stack with
    | nil =>
      cases h
      exact ⟨fun i hi => hi, fun e he => absurd he (List.not_mem_nil e)⟩
    | cons x rest => cases h
  | succ fuel ih =>
    intro processed stack final h
    cases stack with
    | nil =>
      cases h
      exact ⟨fun i hi => hi, fun e he => absurd he (List.not_mem_nil e)⟩
    | cons x rest =>
      unfold depLoop at h
      by_cases hxp : x.id ∈ packages
      · rw [if_pos hxp] at h
        rcases hpd : pushDeps nodes (insertSet x.id processed) x.dependencies rest
            with e | stack2
        · rw [hpd] at h
          cases h
        · rw [hpd] at h
          rcases ih h with ⟨hproc, hstk⟩
          refine ⟨fun i hi => hproc i (mem_insertSet_of_mem hi), fun e he => ?_⟩
          rcases List.mem_cons.mp he with h' | h'
          · exact h' ▸ hproc x.id (mem_insertSet_self x.id processed)
          · exact hstk e (pushDeps_stack_sub hpd e h')
      · rw [if_neg hxp] at h
        cases h

theorem depLoop_closed {packages : List String} {nodes : List Node} :
    ∀ {fuel : Nat} {processed : List String} {stack : List Node} {final : List String},
      depLoop packages nodes fuel processed stack = some (.ok final) →
      (∀ e ∈ stack, findNode nodes e.id = some e) →
      (∀ i ∈ processed, ∀ nd, findNode nodes i = some nd →
        ∀ d ∈ nd.dependencies, d ∈ processed ∨ ∃ e ∈ stack, e.id = d) →
      ∀ i ∈ final, ∀ nd, findNode nodes i = some nd → ∀ d ∈ nd.dependencies, d ∈ final := by
  intro fuel
  induction fuel with
  | zero =>
    intro processed stack final h hcons hinv
    cases stack with
    | nil =>
      cases h
      intro i hi nd hnd d hd
      rcases hinv i hi nd hnd d hd with h' | ⟨e, he, _⟩
      · exact h'
      · exact absurd he (List.not_mem_nil e)
    | cons x rest => cases h
  | succ fuel ih =>
    intro processed stack final h hcons hinv
    cases stack with
    | nil =>
      cases h
      intro i hi nd hnd d hd
      rcases hinv i hi nd hnd d hd with h' | ⟨e, he, _⟩
      · exact h'
      · exact absurd he (List.not_mem_nil e)
    | cons x rest =>
      unfold depLoop at h
      by_cases hxp : x.id ∈ packages
      · rw [if_pos hxp] at h
        rcases hpd : pushDeps nodes (insertSet x.id processed) x.dependencies rest
            with e | stack2
        · rw [hpd] at h
          cases h
        · rw [hpd] at h
          apply ih h
          · intro e he
            rcases pushDeps_src hpd e he with h' | ⟨d, _, hfd⟩
            · exact hcons e (List.mem_cons_of_mem x h')
            · rw [(findNode_some hfd).1]
              exact hfd
          · intro i hi nd hnd d hd
            rcases mem_insertSet_elim hi with h' | h'
            · subst h'
              have hx : findNode nodes x.id = some x := hcons x (List.mem_cons_self x rest)
              rw [hx] at hnd
              cases hnd
              rcases pushDeps_deps hpd d hd with h'' | h''
              · exact Or.inl h''
              · exact Or.inr h''
            · rcases hinv i h' nd hnd d hd with h'' | ⟨e, he, hed⟩
              · exact Or.inl (mem_insertSet_of_mem h'')
              · rcases List.mem_cons.mp he with h3 | h3
                · subst h3
                  exact Or.inl (hed ▸ mem_insertSet_self e.id processed)
                · exact Or.inr ⟨e, pushDeps_stack_sub hpd e h3, hed⟩
      · rw [if_neg hxp] at h
        cases h

theorem depLoop_sound {packages : List String} {nodes : List Node} {root : String} :
    ∀ {fuel : Nat} {processed : List String} {stack : List Node} {final : List String},
      depLoop packages nodes fuel processed stack = some (.ok final) →
      (∀ e ∈ stack, findNode nodes e.id = some e) →
      (∀ i ∈ processed, Reachable nodes root i) →
      (∀ e ∈ stack, Reachable nodes root e.id) →
      ∀ i ∈ final, Reachable nodes root i := by
  intro fuel
  induction fuel with
  | zero =>
    intro processed stack final h hcons hproc hstk
    cases stack with
    | nil =>
      cases h
      exact hproc
    | cons x rest => cases h
  | succ fuel ih =>
    intro processed stack final h hcons hproc hstk
    cases stack with
    | nil =>
      cases h
      exact hproc
    | cons x rest =>
      unfold depLoop at h
      by_cases hxp : x.id ∈ packages
      · rw [if_pos hxp] at h
        rcases hpd : pushDeps nodes (insertSet x.id processed) x.dependencies rest
            with e | stack2
        · rw [hpd] at h
          cases h
        · rw [hpd] at h
          apply ih h
          · intro e he
            rcases pushDeps_src hpd e he with h' | ⟨d, _, hfd⟩
            · exact hcons e (List.mem_cons_of_mem x h')
            · rw [(findNode_some hfd).1]
              exact hfd
          · intro i hi
            rcases mem_insertSet_elim hi with h' | h'
            · exact h' ▸ hstk x (List.mem_cons_self x rest)
            · exact hproc i h'
          · intro e he
            rcases pushDeps_src hpd e he with h' | ⟨d, hd, hfd⟩
            · exact hstk e (List.mem_cons_of_mem x h')
            · rw [(findNode_some hfd).1]
              exact Reachable.step (hstk x (List.mem_cons_self x rest))
                (hcons x (List.mem_cons_self x rest)) hd
      · rw [if_neg hxp] at h
        cases h

theorem depLoop_no_error {packages : List String} {nodes : List Node}
    (H1 : ∀ n ∈ nodes, ∀ d ∈ n.dependencies, (findNode nodes d).isSome = true)
    (H2 : ∀ n ∈ nodes, n.id ∈ packages) :
    ∀ {fuel : Nat} {processed : List String} {stack : List Node} {r : Except String (List String)},
      (∀ e ∈ stack, e ∈ nodes) →
      depLoop packages nodes fuel processed stack = some r →
      ∃ m, r = .ok m := by
  intro fuel
  induction fuel with
  | zero =>
    intro processed stack r hwf h
    cases stack with
    | nil =>
      cases h
      exact ⟨processed, rfl⟩
    | cons x rest => cases h
  | succ fuel ih =>
    intro processed stack r hwf h
    cases stack with
    | nil =>
      cases h
      exact ⟨processed, rfl⟩
    | cons x rest =>
      unfold depLoop at h
      have hx : x ∈ nodes := hwf x (List.mem_cons_self x rest)
      rw [if_pos (H2 x hx)] at h
      rcases @pushDeps_no_error nodes (insertSet x.id processed) x.dependencies rest
          (H1 x hx) with ⟨stack2, hpd⟩
      rw [hpd] at h
      apply ih ?_ h
      intro e he
      rcases pushDeps_mem hpd e he with h' | h'
      · exact hwf e (List.mem_cons_of_mem x h')
      · exact h'

/-- Termination of the frontier loop on an arbitrary graph (cycles and
diamonds included): some fuel makes the loop drain its stack.  The
argument is a lexicographic descent: popping an unprocessed node shrinks
the count of unprocessed node ids; popping an already-processed node
either shrinks the stack or pushes an unprocessed node on top, which the
very next step consumes. -/
theorem depLoop_term (packages : List String) (nodes : List Node) :
    ∀ (N : Nat) (processed : List String) (stack : List Node),
      unprocCount nodes processed ≤ N → (∀ e ∈ stack, e ∈ nodes) →
      ∃ fuel r, depLoop packages nodes fuel processed stack = some r := by
  intro N
  induction N using Nat.strong_induction_on with
  | _ N IH =>
    intro processed stack hc
    induction stack with
    | nil =>
      intro _
      exact ⟨0, .ok processed, rfl⟩
    | cons x rest ihs =>
      intro hwf
      have hwfrest : ∀ e ∈ rest, e ∈ nodes := fun e he => hwf e (List.mem_cons_of_mem x he)
      by_cases hxp : x.id ∈ packages
      · by_cases hxproc : x.id ∈ processed
        · have hins : insertSet x.id processed = processed := by
            unfold insertSet
            rw [if_pos hxproc]
          rcases hpd : pushDeps nodes (insertSet x.id processed) x.dependencies rest
              with e | stack2
          · refine ⟨1, .error e, ?_⟩
            unfold depLoop
            rw [if_pos hxp, hpd]
          · rcases pushDeps_shape hpd with heq | ⟨y, t, heq, hynp, hyn, htm⟩
            · rcases ihs hwfrest with ⟨fuel, r, hr⟩
              refine ⟨fuel + 1, r, ?_⟩
              unfold depLoop
              rw [if_pos hxp, hpd, heq, hins]
              exact hr
            · rw [hins] at hynp
              by_cases hyp : y.id ∈ packages
              · have hcnt : unprocCount nodes (insertSet y.id processed) < N :=
                  Nat.lt_of_lt_of_le (unprocCount_lt nodes processed y hyn hynp) hc
                rcases hpd2 : pushDeps nodes (insertSet y.id processed) y.dependencies t
                    with e2 | stack3
                · refine ⟨2, .error e2, ?_⟩
                  unfold depLoop
                  rw [if_pos hxp, hpd, heq, hins]
                  unfold depLoop
                  rw [if_pos hyp, hpd2]
                · have hwf3 : ∀ e ∈ stack3, e ∈ nodes := by
                    intro e he
                    rcases pushDeps_mem hpd2 e he with h' | h'
                    · rcases htm e h' with h'' | h''
                      · exact hwfrest e h''
                      · exact h''
                    · exact h'
                  rcases IH _ hcnt (insertSet y.id processed) stack3 (Nat.le_refl _) hwf3
                    with ⟨fuel, r, hr⟩
                  refine ⟨fuel + 2, r, ?_⟩
                  unfold depLoop
                  rw [if_pos hxp, hpd, heq, hins]
                  unfold depLoop
                  rw [if_pos hyp, hpd2]
                  exact hr
              · refine ⟨2, .error "Missing details.", ?_⟩
                unfold depLoop
                rw [if_pos hxp, hpd, heq, hins]
                unfold depLoop
                rw [if_neg hyp]
        · have hxn : x ∈ nodes := hwf x (List.mem_cons_self x rest)
          have hcnt : unprocCount nodes (insertSet x.id processed) < N :=
            Nat.lt_of_lt_of_le (unprocCount_lt nodes processed x hxn hxproc) hc
          rcases hpd : pushDeps nodes (insertSet x.id processed) x.dependencies rest
              with e | stack2
          · refine ⟨1, .error e, ?_⟩
            unfold depLoop
            rw [if_pos hxp, hpd]
          · have hwf2 : ∀ e ∈ stack2, e ∈ nodes := by
              intro e he
              rcases pushDeps_mem hpd e he with h' | h'
              · exact hwfrest e h'
              · exact h'
            rcases IH _ hcnt (insertSet x.id processed) stack2 (Nat.le_refl _) hwf2
              with ⟨fuel, r, hr⟩
            refine ⟨fuel + 1, r, ?_⟩
            unfold depLoop
            rw [if_pos hxp, hpd]
            exact hr
      · refine ⟨1, .error "Missing details.", ?_⟩
        unfold depLoop
        rw [if_neg hxp]

theorem processDeclaration_prov (pkg : Package) (d : ResourceDataDeclaration)
    (reg : Registry) (pr : Registry × List Event)
    (h : processDeclaration pkg d reg = .ok pr) :
    ∀ k v, lookupReg pr.1 k = some v →
      lookupReg reg k = some v ∨ v.declaring_crate_name = pkg.name := by
  unfold processDeclaration at h
  rcases hf : d.crate_path.file_name with _ | fb
  · rw [hf] at h
    cases h
  · rw [hf] at h
    dsimp only at h
    by_cases h1 : d.crate_path.is_absolute = true
    · rw [if_pos h1] at h
      cases h
    · rw [if_neg h1] at h
      by_cases h2 : (d.output_path.getD d.crate_path).is_absolute = true
      · rw [if_pos h2] at h
        cases h
      · rw [if_neg h2] at h
        rcases hm : pkg.manifest_path.parent with _ | md
        · rw [hm] at h
          cases h
        · rw [hm] at h
          dsimp only at h
          injection h with h3
          subst h3
          intro k v hkv
          dsimp only at hkv
          rw [lookupReg_insertReg] at hkv
          by_cases hk : d.resource_name.getD fb = k
          · rw [if_pos hk] at hkv
            injection hkv with h4
            exact Or.inr (by rw [← h4])
          · rw [if_neg hk] at hkv
            exact Or.inl hkv

theorem processEntries_prov (pkg : Package) :
    ∀ (l : List DeclEntry) (reg : Registry) (pr : Registry × List Event),
      processEntries pkg l reg = .ok pr →
      ∀ k v, lookupReg pr.1 k = some v →
        lookupReg reg k = some v ∨ v.declaring_crate_name = pkg.name := by
  intro l
  induction l with
  | nil =>
    intro reg pr h k v hkv
    cases h
    exact Or.inl hkv
  | cons ent rest ih =>
    intro reg pr h k v hkv
    cases ent with
    | malformed e => cases h
    | parsed d =>
      unfold processEntries at h
      rcases hp : processDeclaration pkg d reg with pr1 | e | m
      · rw [hp] at h
        rcases pr1 with ⟨reg1, evs1⟩
        dsimp only at h
        rcases hq : processEntries pkg rest reg1 with pr2 | e2 | m2
        · rw [hq] at h
          rcases pr2 with ⟨reg3, evs3⟩
          dsimp only at h
          injection h with h3
          subst h3
          dsimp only at hkv
          rcases ih reg1 (reg3, evs3) hq k v hkv with h' | h'
          · exact processDeclaration_prov pkg d reg (reg1, evs1) hp k v h'
          · exact Or.inr h'
        · rw [hq] at h
          cases h
        · rw [hq] at h
          cases h
      · rw [hp] at h
        cases h
      · rw [hp] at h
        cases h

theorem get_package_resource_data_prov (pkg : Package) (reg : Registry)
    (pr : Registry × List Event) (h : get_package_resource_data pkg reg = .ok pr) :
    ∀ k v, lookupReg pr.1 k = some v →
      lookupReg reg k = some v ∨ v.declaring_crate_name = pkg.name := by
  unfold get_package_resource_data at h
  rcases hpv : pkg.provides with _ | l | _ <;> rw [hpv] at h
  · cases h
    exact fun k v hkv => Or.inl hkv
  · exact processEntries_prov pkg l reg pr h
  · cases h

theorem buildRegistry_prov :
    ∀ (pkgs : List Package) (reg0 : Registry) (pr : Registry × List Event),
      buildRegistry pkgs reg0 = .ok pr →
      ∀ k v, lookupReg pr.1 k = some v →
        lookupReg reg0 k = some v ∨
          ∃ pkg, pkg ∈ pkgs ∧ v.declaring_crate_name = pkg.name := by
  intro pkgs
  induction pkgs with
  | nil =>
    intro reg0 pr h k v hkv
    cases h
    exact Or.inl hkv
  | cons pkg rest ih =>
    intro reg0 pr h k v hkv
    unfold buildRegistry at h
    rcases hp : get_package_resource_data pkg reg0 with pr1 | e | m
    · rw [hp] at h
      rcases pr1 with ⟨reg1, evs1⟩
      dsimp only at h
      rcases hq : buildRegistry rest reg1 with pr2 | e2 | m2
      · rw [hq] at h
        rcases pr2 with ⟨reg3, evs3⟩
        dsimp only at h
        injection h with h3
        subst h3
        dsimp only at hkv
        rcases ih reg1 (reg3, evs3) hq k v hkv with h' | ⟨pkg', hmem, hname⟩
        · rcases get_package_resource_data_prov pkg reg0 (reg1, evs1) hp k v h' with h'' | h''
          · exact Or.inl h''
          · exact Or.inr ⟨pkg, List.mem_cons_self pkg rest, h''⟩
        · exact Or.inr ⟨pkg', List.mem_cons_of_mem pkg hmem, hname⟩
      · rw [hq] at h
        cases h
      · rw [hq] at h
        cases h
    · rw [hp] at h
      cases h
    · rw [hp] at h
      cases h

theorem final_complete (nodes : List Node) (root : String) (final : List String)
    (hclosed : ∀ i ∈ final, ∀ nd, findNode nodes i = some nd →
      ∀ d ∈ nd.dependencies, d ∈ final)
    (hroot : root ∈ final) :
    ∀ p, Reachable nodes root p → p ∈ final := by
  intro p hp
  induction hp with
  | refl => exact hroot
  | step _ hf hd ih => exact hclosed _ ih _ hf _ hd

/-- C7: whenever the frontier loop completes, the set of packages marked
as dependencies is exactly the set of packages reachable from the root
(the root included), and every entry of a Declaration Registry built from
the marked packages was declared by a reachable package. -/
theorem claim_c7 (packages : List String) (nodes : List Node) (root_id : String)
    (fuel : Nat) (m : List String)
    (hrun : get_package_details packages nodes root_id fuel = some (.ok m)) :
    (∀ p, p ∈ m ↔ Reachable nodes root_id p) ∧
    (∀ (pkgs : List Package) (pr : Registry × List Event),
      buildRegistry (pkgs.filter (fun p => p.id ∈ m)) [] = .ok pr →
      ∀ k v, lookupReg pr.1 k = some v →
        ∃ pkg, pkg ∈ pkgs ∧ Reachable nodes root_id pkg.id ∧
          v.declaring_crate_name = pkg.name) := by
  unfold get_package_details at hrun
  rcases hroot : findNode nodes root_id with _ | rnode
  · rw [hroot] at hrun
    exact absurd hrun (by simp)
  · rw [hroot] at hrun
    have hcons0 : ∀ e ∈ [rnode], findNode nodes e.id = some e := by
      intro e he
      rw [List.mem_singleton] at he
      subst he
      rw [(findNode_some hroot).1]
      exact hroot
    have hstk0 : ∀ e ∈ [rnode], Reachable nodes root_id e.id := by
      intro e he
      rw [List.mem_singleton] at he
      subst he
      rw [(findNode_some hroot).1]
      exact Reachable.refl
    have hsound := depLoop_sound hrun hcons0 (fun i hi => absurd hi (List.not_mem_nil i)) hstk0
    have hsub := depLoop_sub hrun
    have hclosed := depLoop_closed hrun hcons0
      (fun i hi => absurd hi (List.not_mem_nil i))
    have hrootm : root_id ∈ m := by
      have h := hsub.2 rnode (List.mem_singleton_self rnode)
      rw [(findNode_some hroot).1] at h
      exact h
    have hcompl := final_complete nodes root_id m hclosed hrootm
    refine ⟨fun p => ⟨fun hp => hsound p hp, fun hp => hcompl p hp⟩, ?_⟩
    intro pkgs pr hbr k v hkv
    rcases buildRegistry_prov _ [] pr hbr k v hkv with h' | ⟨pkg, hmem, hname⟩
    · exact absurd h' (by simp [lookupReg])
    · rcases List.mem_filter.mp hmem with ⟨hpkgs, hdec⟩
      have hidm : pkg.id ∈ m := by simpa using hdec
      exact ⟨pkg, hpkgs, hsound pkg.id hidm, hname⟩

/-- C9: on any dependency graph whose mentioned nodes all have entries in
the node map — cycles and diamond sharing included — some finite fuel
drains the frontier loop successfully, and the resulting marking contains
every package reachable from the root. -/
theorem claim_c9 (packages : List String) (nodes : List Node) (root_id : String)
    (rnode : Node)
    (H1 : ∀ n ∈ nodes, ∀ d ∈ n.dependencies, (findNode nodes d).isSome = true)
    (H2 : ∀ n ∈ nodes, n.id ∈ packages)
    (hroot : findNode nodes root_id = some rnode) :
    ∃ fuel m, get_package_details packages nodes root_id fuel = some (.ok m) ∧
      ∀ p, Reachable nodes root_id p → p ∈ m := by
  have hwf : ∀ e ∈ [rnode], e ∈ nodes := by
    intro e he
    rw [List.mem_singleton] at he
    subst he
    exact (findNode_some hroot).2
  rcases depLoop_term packages nodes (unprocCount nodes []) [] [rnode]
    (Nat.le_refl _) hwf with ⟨fuel, r, hr⟩
  rcases depLoop_no_error H1 H2 hwf hr with ⟨m, rfl⟩
  have hcons0 : ∀ e ∈ [rnode], findNode nodes e.id = some e := by
    intro e he
    rw [List.mem_singleton] at he
    subst he
    rw [(findNode_some hroot).1]
    exact hroot
  have hsub := depLoop_sub hr
  have hclosed := depLoop_closed hr hcons0 (fun i hi => absurd hi (List.not_mem_nil i))
  have hrootm : root_id ∈ m := by
    have h := hsub.2 rnode (List.mem_singleton_self rnode)
    rw [(findNode_some hroot).1] at h
    exact h
  refine ⟨fuel, m, ?_, final_complete nodes root_id m hclosed hrootm⟩
  unfold get_package_details
  rw [hroot]
  exact hr

/-- Witness for C7: the chain `A → B → C` with an unrelated package `D`;
the filter marks exactly `A`, `B`, `C`. -/
theorem claim_c7_witness :
    get_package_details ["A", "B", "C", "D"]
        [⟨"A", ["B"]⟩, ⟨"B", ["C"]⟩, ⟨"C", []⟩, ⟨"D", []⟩] "A" 10 =
      some (.ok ["C", "B", "A"]) ∧
    ((∀ p, p ∈ ["C", "B", "A"] ↔
        Reachable [⟨"A", ["B"]⟩, ⟨"B", ["C"]⟩, ⟨"C", []⟩, ⟨"D", []⟩] "A" p) ∧
     (∀ (pkgs : List Package) (pr : Registry × List Event),
        buildRegistry (pkgs.filter (fun p => p.id ∈ ["C", "B", "A"])) [] = .ok pr →
        ∀ k v, lookupReg pr.1 k = some v →
          ∃ pkg, pkg ∈ pkgs ∧
            Reachable [⟨"A", ["B"]⟩, ⟨"B", ["C"]⟩, ⟨"C", []⟩, ⟨"D", []⟩] "A" pkg.id ∧
            v.declaring_crate_name = pkg.name)) :=
  ⟨rfl,
   claim_c7 ["A", "B", "C", "D"] [⟨"A", ["B"]⟩, ⟨"B", ["C"]⟩, ⟨"C", []⟩, ⟨"D", []⟩]
     "A" 10 ["C", "B", "A"] rfl⟩

/-- Witness for C9 on a cyclic graph `A → B → A`: the traversal still
terminates and marks both nodes. -/
theorem claim_c9_witness :
    (∀ n ∈ [(⟨"A", ["B"]⟩ : Node), ⟨"B", ["A"]⟩], ∀ d ∈ n.dependencies,
      (findNode [⟨"A", ["B"]⟩, ⟨"B", ["A"]⟩] d).isSome = true) ∧
    (∀ n ∈ [(⟨"A", ["B"]⟩ : Node), ⟨"B", ["A"]⟩], n.id ∈ ["A", "B"]) ∧
    findNode [⟨"A", ["B"]⟩, ⟨"B", ["A"]⟩] "A" = some ⟨"A", ["B"]⟩ ∧
    ∃ fuel m, get_package_details ["A", "B"] [⟨"A", ["B"]⟩, ⟨"B", ["A"]⟩] "A" fuel =
        some (.ok m) ∧
      ∀ p, Reachable [⟨"A", ["B"]⟩, ⟨"B", ["A"]⟩] "A" p → p ∈ m :=
  ⟨by decide, by decide, by decide,
   claim_c9 ["A", "B"] [⟨"A", ["B"]⟩, ⟨"B", ["A"]⟩] "A" ⟨"A", ["B"]⟩
     (by decide) (by decide) (by decide)⟩

/-- Witness for the amended C1: a consumer-declared root `rroot` is used
verbatim and resolved against the working directory. -/
theorem claim_c1_witness :
    get_resource_requirement (.object (.ok ⟨some ⟨false, ["rroot"]⟩, some []⟩)) [] =
      .ok ⟨⟨false, ["rroot"]⟩, []⟩ ∧
    collate_sync (fun _ => "") (fun _ => []) ["w"]
        (.object (.ok ⟨some ⟨false, ["rroot"]⟩, some []⟩)) [] ⟨[], []⟩ =
      (create_output_directory ["w"] ⟨[], []⟩ ⟨false, ["rroot"]⟩, .ok [Event.noResources]) ∧
    ((⟨false, ["rroot"]⟩ : FsPath) =
      (ResourceConsumerDeclaration.mk (some ⟨false, ["rroot"]⟩) (some [])).resource_root.getD
        defaultResourceRoot ∧
     (create_output_directory ["w"] ⟨[], []⟩ ⟨false, ["rroot"]⟩).pathExists
       (normalize ["w"] ⟨false, ["rroot"]⟩) = true) :=
  ⟨rfl, by decide,
   claim_c1_amended (fun _ => "") (fun _ => []) ["w"]
     (.object (.ok ⟨some ⟨false, ["rroot"]⟩, some []⟩)) [] ⟨[], []⟩
     (create_output_directory ["w"] ⟨[], []⟩ ⟨false, ["rroot"]⟩)
     ⟨some ⟨false, ["rroot"]⟩, some []⟩ ⟨⟨false, ["rroot"]⟩, []⟩ [Event.noResources]
     (Or.inr rfl) rfl (by decide)⟩

end CargoResources
